import Mathlib

/-!
Verification development for the wincross configuration orchestrator.

The Python sources under `src/wincross/` are shallowly embedded here:
Python `pathlib.PurePosixPath` values become `PPath` (an absoluteness flag
plus the parsed component list), raw JSON/TOML values become `JVal`,
configuration dictionaries become structures with `Option` fields (a
`none` field models an absent dictionary key), and every `die(...)` call
becomes an `Except` error carrying the message.  Filesystem-dependent
behaviour (symlink resolution, current working directory) is modelled
lexically and is noted at each definition it affects.
-/

namespace Wincross

/-- Modelled from the spec: `constants.py` is not under `src/`.  The state
directory name under the project root; the CLI help text in `cli.py` names
it `.wincross`. -/
def STATE_DIRNAME : String := ".wincross"

/-- Modelled from the spec: `constants.py` is not under `src/`.  The build
config filename; the CLI help text names `.wincross/build_config.json`. -/
def BUILD_CONFIG_FILENAME : String := "build_config.json"

/-- Modelled from the spec: `constants.py` is not under `src/`.  The fixed
container-side mount point of the project root; the CLI help text for
`--build-dir` overrides names `/work/project/...`. -/
def DEFAULT_CONTAINER_ROOT : String := "/work/project"

/-- Modelled from the spec: `constants.py` is not under `src/`.  The
project config filename (spec: a project-root-relative default path). -/
def PROJECT_CONFIG_FILENAME : String := "wincross.toml"

/-- Modelled from the spec: `constants.py` is not under `src/`.  Built-in
default image tag; its concrete value is immaterial to every claim. -/
def DEFAULT_IMAGE : String := "wincross:latest"

/-- Modelled from the spec: `constants.py` is not under `src/`.  Built-in
default CMake generator. -/
def DEFAULT_GENERATOR : String := "Ninja"

/-- Modelled from the spec: `constants.py` is not under `src/`.  Built-in
default CMake build type. -/
def DEFAULT_BUILD_TYPE : String := "Release"

/-- The error outcome of an embedded operation: `died msg` models the
`die(...)` helper of `util.py` (print an error and exit), while `uncaught`
models a Python exception that no handler in the source catches (for
example the `IndexError` that `str.format` raises on a positional
replacement field). -/
inductive Err where
  | died (msg : String)
  | uncaught
deriving DecidableEq, Repr

deriving instance DecidableEq for Except

/-- A POSIX path as `pathlib.PurePosixPath` stores it after parsing: an
absoluteness flag plus the component list with empty and `.` components
dropped and `..` kept (pathlib performs no `..` collapsing at parse
time). -/
structure PPath where
  absolute : Bool
  parts : List String
deriving DecidableEq, Repr

/-- Split a character list at every `/` (the pieces, in order; a
separator at either end or two adjacent separators yield empty
pieces, exactly as Python's `str.split("/")`). -/
def splitSlash (cur : List Char) : List Char → List (List Char)
  | [] => [cur.reverse]
  | c :: rest => if c = '/' then cur.reverse :: splitSlash [] rest else splitSlash (c :: cur) rest

/-- Parse a path string the way `PurePosixPath(s)` does: split on `/`,
drop empty and `.` components, record whether the string is absolute.
(The POSIX double-leading-slash special case is not modelled.) -/
def parsePath (s : String) : PPath :=
  { absolute := s.data.head? = some '/'
    parts := ((splitSlash [] s.data).map String.mk).filter (fun c => c ≠ "" && c ≠ ".") }

/-- `str(p)` for a `PurePosixPath`: the empty relative path prints as
`.`. -/
def pathStr (p : PPath) : String :=
  if p.absolute then "/" ++ String.intercalate "/" p.parts
  else if p.parts = [] then "." else String.intercalate "/" p.parts

/-- `p / s` for a path and a string operand, as pathlib joins them: an
absolute right operand replaces the left one. -/
def pathJoin (p : PPath) (s : String) : PPath :=
  let q := parsePath s
  if q.absolute then q else { absolute := p.absolute, parts := p.parts ++ q.parts }

/-- `p.parent`: drop the last component (the parent of the root is the
root, of the empty relative path the empty relative path). -/
def pathParent (p : PPath) : PPath :=
  { absolute := p.absolute, parts := p.parts.dropLast }

/-- `p.name`: the final component, or the empty string when there is
none.  Note `PurePosixPath("..").name = ".."` in CPython, since `..`
components are kept by the parser. -/
def pathName (p : PPath) : String :=
  (p.parts.getLast?).getD ""

/-- `Path.resolve()` modelled lexically on an absolute path (the model
assumes no symlinks are involved): `..` pops the previous component and
is dropped at the root.  The result is always marked absolute, matching
`resolve` on the absolute paths this development applies it to. -/
def resolveAbs (p : PPath) : PPath :=
  { absolute := true
    parts := p.parts.foldl (fun acc c => if c = ".." then acc.dropLast else acc ++ [c]) [] }

/-- `Path(s).resolve()` on a path string. -/
def resolvePathStr (s : String) : PPath := resolveAbs (parsePath s)

/-- `path.relative_to(root)` from CPython's pathlib: succeeds iff the two
paths agree on absoluteness and `root`'s component list is a list prefix
of `path`'s; the check is purely lexical, so `..` components are ordinary
components.  Returns the remaining components on success. -/
def relativeTo (p r : PPath) : Option (List String) :=
  if p.absolute = r.absolute && r.parts.isPrefixOf p.parts
  then some (p.parts.drop r.parts.length) else none

/-- `util.is_under_root`: true iff `path.relative_to(root)` does not
raise. -/
def is_under_root (path root : PPath) : Bool :=
  (relativeTo path root).isSome

/-- `util.state_dir`. -/
def state_dir (root : PPath) : PPath := pathJoin root STATE_DIRNAME

/-- `util.to_container_path`: dies if `host_path` is not under `root`,
otherwise joins the container root with the root-relative POSIX form
(`relative_to` returning the empty remainder corresponds to Python's
`"."` case). -/
def to_container_path (host_path root : PPath) (container_root : String) : Except Err String :=
  match relativeTo host_path root with
  | none =>
      let hp := pathStr host_path
      .error (.died s!"path must be under project root: {hp}")
  | some rel =>
      if rel = [] then .ok container_root
      else .ok (container_root ++ "/" ++ String.intercalate "/" rel)

/-- `util.merge_lists`. -/
def merge_lists (base override : List String) : List String := base ++ override

/-- Insert-or-replace for an association list with Python-dict update
semantics: an existing key keeps its position, a new key is appended. -/
def updateAssoc {β : Type} (l : List (String × β)) (k : String) (v : β) : List (String × β) :=
  match l with
  | [] => [(k, v)]
  | (k', v') :: rest => if k' = k then (k, v) :: rest else (k', v') :: updateAssoc rest k v

/-- Lookup in an association list (first occurrence wins, as in a Python
dict where keys are unique). -/
def lookupAssoc {β : Type} (l : List (String × β)) (k : String) : Option β :=
  match l with
  | [] => none
  | (k', v) :: rest => if k' = k then some v else lookupAssoc rest k

/-- `util.merge_env`: `dict(base)` updated with `override`. -/
def merge_env (base override : List (String × String)) : List (String × String) :=
  override.foldl (fun acc kv => updateAssoc acc kv.1 kv.2) base

/-- `util.dedupe_preserve_order`. -/
def dedupe_preserve_order (items : List String) : List String :=
  (items.foldl (fun (st : List String × List String) item =>
    if item ∈ st.1 then st else (st.1 ++ [item], st.2 ++ [item])) ([], [])).2

/-- A raw JSON/TOML value, as loaded from the project or build config
before any validation (Python passes these around as `Any`).  Integers
stand in for Python numbers; floats are not modelled (no claim involves
them). -/
inductive JVal where
  | jnull
  | jbool (b : Bool)
  | jnum (n : Int)
  | jstr (s : String)
  | jarr (xs : List JVal)
  | jobj (kvs : List (String × JVal))
deriving Repr

/- Structural Boolean equality on `JVal` (with its list and pair
companions), used to derive decidable equality. -/
mutual
def jvalBEq : JVal → JVal → Bool
  | .jnull, .jnull => true
  | .jbool a, .jbool b => a == b
  | .jnum a, .jnum b => a == b
  | .jstr a, .jstr b => a == b
  | .jarr xs, .jarr ys => jvalListBEq xs ys
  | .jobj xs, .jobj ys => jvalPairsBEq xs ys
  | _, _ => false
def jvalListBEq : List JVal → List JVal → Bool
  | [], [] => true
  | x :: xs, y :: ys => jvalBEq x y && jvalListBEq xs ys
  | _, _ => false
def jvalPairsBEq : List (String × JVal) → List (String × JVal) → Bool
  | [], [] => true
  | (k1, v1) :: xs, (k2, v2) :: ys => k1 == k2 && jvalBEq v1 v2 && jvalPairsBEq xs ys
  | _, _ => false
end

theorem jval_beq_iff : ∀ a b : JVal, jvalBEq a b = true ↔ a = b := by
  intro a
  induction a using JVal.rec
    (motive_2 := fun xs => ∀ ys, jvalListBEq xs ys = true ↔ xs = ys)
    (motive_3 := fun xs => ∀ ys, jvalPairsBEq xs ys = true ↔ xs = ys)
    (motive_4 := fun p => ∀ v, jvalBEq p.2 v = true ↔ p.2 = v)
  · intro b; cases b <;> simp [jvalBEq]
  · intro b; cases b <;> simp [jvalBEq]
  · intro b; cases b <;> simp [jvalBEq]
  · intro b; cases b <;> simp [jvalBEq]
  · rename_i xs ih; intro b; cases b <;> simp [jvalBEq, ih]
  · rename_i kvs ih; intro b; cases b <;> simp [jvalBEq, ih]
  · rename_i ys; cases ys <;> simp [jvalListBEq]
  · rename_i x xs ihx ihxs ys; cases ys <;> simp [jvalListBEq, ihx, ihxs]
  · rename_i ys; cases ys <;> simp [jvalPairsBEq]
  · rename_i p ps ihp ihps ys
    obtain ⟨k, v⟩ := p
    cases ys with
    | nil => simp [jvalPairsBEq]
    | cons q qs =>
        obtain ⟨k2, v2⟩ := q
        simp only [jvalPairsBEq, Bool.and_eq_true, beq_iff_eq, List.cons.injEq, Prod.mk.injEq]
        rw [ihp, ihps]
  · rename_i k v ihv w; exact ihv w

instance : DecidableEq JVal := fun a b => decidable_of_iff _ (jval_beq_iff a b)

/-- `dict.get(k)` on a raw JSON object: first matching key (keys of a
Python dict are unique). -/
def jlookup (kvs : List (String × JVal)) (k : String) : Option JVal :=
  lookupAssoc kvs k

/-- Python `str.strip()`: drop leading and trailing whitespace
(modelled over the ASCII whitespace characters). -/
def pyStrip (s : String) : String :=
  String.mk (((s.data.dropWhile Char.isWhitespace).reverse.dropWhile Char.isWhitespace).reverse)

/-- A normalized winexe wrapper descriptor, the element type of
`normalize_winexe_wrappers`' result. -/
structure Wrapper where
  name : String
  exe : String
  msvc_env : Bool
deriving DecidableEq, Repr

/-- The per-item loop of `wrappers.normalize_winexe_wrappers`, carrying
the running item index used in error messages.  Checks are performed in
source order: `name` must be a string with non-whitespace content, then
`Path(name).name == name`, then `exe` must be a string with
non-whitespace content, then `msvc_env` (defaulting to `False`) must be
a Boolean.  (Quote characters of the Python messages are omitted.) -/
def normalizeWinexeItems (ctx : String) : Nat → List JVal → Except Err (List Wrapper)
  | _, [] => .ok []
  | idx, item :: rest =>
    match item with
    | .jobj fields =>
        match jlookup fields "name" with
        | some (.jstr name) =>
            if pyStrip name = "" then
              .error (.died s!"{ctx} winexe_wrappers[{idx}] missing name")
            else if pathName (parsePath name) ≠ name then
              .error (.died s!"{ctx} winexe_wrappers[{idx}] name must be a basename: {name}")
            else
              match jlookup fields "exe" with
              | some (.jstr exe) =>
                  if pyStrip exe = "" then
                    .error (.died s!"{ctx} winexe_wrappers[{idx}] missing exe")
                  else
                    match jlookup fields "msvc_env" with
                    | none =>
                        (normalizeWinexeItems ctx (idx + 1) rest).map
                          (fun ws => ⟨name, exe, false⟩ :: ws)
                    | some (.jbool b) =>
                        (normalizeWinexeItems ctx (idx + 1) rest).map
                          (fun ws => ⟨name, exe, b⟩ :: ws)
                    | some _ =>
                        .error (.died s!"{ctx} winexe_wrappers[{idx}] msvc_env must be true/false")
              | _ => .error (.died s!"{ctx} winexe_wrappers[{idx}] missing exe")
        | _ => .error (.died s!"{ctx} winexe_wrappers[{idx}] missing name")
    | _ => .error (.died s!"{ctx} winexe_wrappers[{idx}] must be a table")

/-- `wrappers.normalize_winexe_wrappers`: `raw is None` (an absent key,
or a JSON `null`) yields the empty list; a non-list value dies; list
items are checked by `normalizeWinexeItems`. -/
def normalize_winexe_wrappers (raw : Option JVal) (ctx : String) : Except Err (List Wrapper) :=
  match raw with
  | none => .ok []
  | some .jnull => .ok []
  | some (.jarr items) => normalizeWinexeItems ctx 0 items
  | some _ => .error (.died s!"{ctx} winexe_wrappers must be a list")

/-- `wrappers.merge_winexe_wrappers`: walk the project-then-build
concatenation, recording each name at its first occurrence in `order`
and overwriting the kept entry (`merged[name] = wrapper`), then emit the
kept entries in first-occurrence order. -/
def merge_winexe_wrappers (project_wrappers build_wrappers : List Wrapper) : List Wrapper :=
  let st := (project_wrappers ++ build_wrappers).foldl
    (fun (st : List (String × Wrapper) × List String) w =>
      let order := if (lookupAssoc st.1 w.name).isSome then st.2 else st.2 ++ [w.name]
      (updateAssoc st.1 w.name w, order))
    ([], [])
  st.2.filterMap (fun n => lookupAssoc st.1 n)

/-- A toolchain entry's attribute map; `none` models an absent key. -/
structure ToolchainEntry where
  host_path : Option String := none
  container_path : Option String := none
  read_only : Option Bool := none
  path_prepend : Option (List String) := none
deriving DecidableEq, Repr

/-- `dict.update` on a toolchain attribute map: a key present in the
override wins, everything else is kept. -/
def tcUpdate (base override : ToolchainEntry) : ToolchainEntry :=
  { host_path := override.host_path.orElse fun _ => base.host_path
    container_path := override.container_path.orElse fun _ => base.container_path
    read_only := override.read_only.orElse fun _ => base.read_only
    path_prepend := override.path_prepend.orElse fun _ => base.path_prepend }

/-- `util.merge_toolchains`: per-name shallow merge, build entries
overlaying project entries, new names appended in build order. -/
def merge_toolchains (project_tc build_tc : List (String × ToolchainEntry)) :
    List (String × ToolchainEntry) :=
  build_tc.foldl (fun merged kv =>
    match lookupAssoc merged kv.1 with
    | some existing => updateAssoc merged kv.1 (tcUpdate existing kv.2)
    | none => updateAssoc merged kv.1 kv.2) project_tc

/-- Python string truthiness on an optional value: `None` and `""` are
falsy, used for `a or b` chains over `.get(...)` results. -/
def strTruthy (o : Option String) : Option String :=
  match o with
  | some s => if s = "" then none else some s
  | none => none

/-- Python list truthiness on an optional value: `None` and `[]` are
falsy. -/
def listTruthy (o : Option (List String)) : Option (List String) :=
  match o with
  | some l => if l = [] then none else some l
  | none => none

/-- The package-manager block of a project or build configuration;
`none` models an absent key. -/
structure VcpkgCfg where
  enabled : Option Bool := none
  triplet : Option String := none
  packages : Option (List String) := none
  overlay_triplets : Option (List String) := none
  fixup_z3_dll : Option Bool := none
  host_root : Option String := none
  host_binary_cache : Option String := none
  container_root : Option String := none
  container_binary_cache : Option String := none
deriving DecidableEq, Repr

/-- The legacy nested `cmake` table of a project config. -/
structure CmakeBlock where
  defaults : Option (List String) := none
  generator : Option String := none
  build_type : Option String := none
  build_dir : Option String := none
deriving DecidableEq, Repr

/-- The legacy nested `wincross` table of a project config. -/
structure WincrossBlock where
  winexe_wrappers : Option (List JVal) := none
  winepath_prepend : Option (List String) := none
  bin_aliases : Option (List String) := none
  emulator_env : Option (List (String × String)) := none
deriving DecidableEq, Repr

/-- The legacy nested `path` table of a project config. -/
structure PathBlock where
  prepend : Option (List String) := none
deriving DecidableEq, Repr

/-- The flat project-config shape, also the shape of a profile overlay.
Fields are `Option`s: `none` models an absent key.  `winexe_wrappers`
keeps its items raw (`JVal`), since they are validated only by
`normalize_winexe_wrappers`.  (A profile overlay carrying its own
`profiles` key — which `select_profile` would copy around as an opaque
value — is not modelled; no behaviour settled here depends on it.) -/
structure ProjectCfgCore where
  image : Option String := none
  generator : Option String := none
  build_type : Option String := none
  build_dir : Option String := none
  default_profile : Option String := none
  cmake_defaults : Option (List String) := none
  path_prepend : Option (List String) := none
  winepath_prepend : Option (List String) := none
  bin_aliases : Option (List String) := none
  winexe_wrappers : Option (List JVal) := none
  env : Option (List (String × String)) := none
  emulator_env : Option (List (String × String)) := none
  toolchains : Option (List (String × ToolchainEntry)) := none
  vcpkg : Option VcpkgCfg := none
  cmake : Option CmakeBlock := none
  wincross : Option WincrossBlock := none
  path : Option PathBlock := none
deriving DecidableEq, Repr

/-- A project configuration: the flat shape plus the `profiles` map. -/
structure ProjectCfg extends ProjectCfgCore where
  profiles : List (String × ProjectCfgCore) := []
deriving DecidableEq, Repr

/-- `config.normalize_project_config` on the flat shape: lift each
legacy nested key into the flat key only when the flat key is absent
(flat takes precedence); the nested tables themselves are left in
place. -/
def normalizeCore (c : ProjectCfgCore) : ProjectCfgCore :=
  let c := match c.cmake with
    | none => c
    | some cm =>
        { c with
          cmake_defaults := c.cmake_defaults.orElse fun _ => cm.defaults
          generator := c.generator.orElse fun _ => cm.generator
          build_type := c.build_type.orElse fun _ => cm.build_type
          build_dir := c.build_dir.orElse fun _ => cm.build_dir }
  let c := match c.wincross with
    | none => c
    | some w =>
        { c with
          winexe_wrappers := c.winexe_wrappers.orElse fun _ => w.winexe_wrappers
          winepath_prepend := c.winepath_prepend.orElse fun _ => w.winepath_prepend
          bin_aliases := c.bin_aliases.orElse fun _ => w.bin_aliases
          emulator_env := c.emulator_env.orElse fun _ => w.emulator_env }
  match c.path with
  | none => c
  | some pb =>
      { c with path_prepend := c.path_prepend.orElse fun _ => pb.prepend }

/-- `config.normalize_project_config` on a full project config (the
`profiles` key is copied through untouched). -/
def normalize_project_config (cfg : ProjectCfg) : ProjectCfg :=
  { normalizeCore cfg.toProjectCfgCore with profiles := cfg.profiles }

/-- `config.select_profile`: normalize, pop `profiles`; without a
(truthy) requested profile return the base; otherwise normalize the
chosen overlay (absent names yield the empty overlay) and merge it onto
the base with the per-key rules of the source: list concatenation for
`cmake_defaults`/`path_prepend`/`winexe_wrappers`, key overlay for
`env`, per-entry overlay for `toolchains`, shallow map overlay for
`vcpkg`, plain replacement for every other key.  (The source dies when
a profile overlay is not a table; the typed model has no such value.) -/
def select_profile (cfg : ProjectCfg) (profile : Option String) : ProjectCfg :=
  let base := normalize_project_config cfg
  let profiles := base.profiles
  let base : ProjectCfg := { base with profiles := [] }
  match profile with
  | none => base
  | some p =>
      if p = "" then base
      else
        let ov := normalizeCore ((lookupAssoc profiles p).getD {})
        { base with
          cmake_defaults :=
            match ov.cmake_defaults with
            | some v => some (merge_lists (base.cmake_defaults.getD []) v)
            | none => base.cmake_defaults
          path_prepend :=
            match ov.path_prepend with
            | some v => some (merge_lists (base.path_prepend.getD []) v)
            | none => base.path_prepend
          winexe_wrappers :=
            match ov.winexe_wrappers with
            | some v => some ((base.winexe_wrappers.getD []) ++ v)
            | none => base.winexe_wrappers
          env :=
            match ov.env with
            | some v => some (merge_env (base.env.getD []) v)
            | none => base.env
          toolchains :=
            match ov.toolchains with
            | some v => some (merge_toolchains (base.toolchains.getD []) v)
            | none => base.toolchains
          vcpkg :=
            match ov.vcpkg with
            | some v =>
                some (let b := base.vcpkg.getD {}
                      { enabled := v.enabled.orElse fun _ => b.enabled
                        triplet := v.triplet.orElse fun _ => b.triplet
                        packages := v.packages.orElse fun _ => b.packages
                        overlay_triplets := v.overlay_triplets.orElse fun _ => b.overlay_triplets
                        fixup_z3_dll := v.fixup_z3_dll.orElse fun _ => b.fixup_z3_dll
                        host_root := v.host_root.orElse fun _ => b.host_root
                        host_binary_cache := v.host_binary_cache.orElse fun _ => b.host_binary_cache
                        container_root := v.container_root.orElse fun _ => b.container_root
                        container_binary_cache := v.container_binary_cache.orElse fun _ => b.container_binary_cache })
            | none => base.vcpkg
          image := ov.image.orElse fun _ => base.image
          generator := ov.generator.orElse fun _ => base.generator
          build_type := ov.build_type.orElse fun _ => base.build_type
          build_dir := ov.build_dir.orElse fun _ => base.build_dir
          default_profile := ov.default_profile.orElse fun _ => base.default_profile
          winepath_prepend := ov.winepath_prepend.orElse fun _ => base.winepath_prepend
          bin_aliases := ov.bin_aliases.orElse fun _ => base.bin_aliases
          emulator_env := ov.emulator_env.orElse fun _ => base.emulator_env
          cmake := ov.cmake.orElse fun _ => base.cmake
          wincross := ov.wincross.orElse fun _ => base.wincross
          path := ov.path.orElse fun _ => base.path }

/-- The toolchain loop of `config.validate_project_config`: the first
entry carrying `host_path` dies.  (Quote characters of the Python
message are omitted.) -/
def checkToolchains : List (String × ToolchainEntry) → Except Err Unit
  | [] => .ok ()
  | (name, tc) :: rest =>
      if tc.host_path.isSome then
        .error (.died s!"project config toolchain {name} must not set host_path")
      else checkToolchains rest

/-- A list-entry loop of `config.validate_project_config`: entries must
be non-empty strings (the model types them as strings, so only the
emptiness check remains); dies with the given message. -/
def checkListEntries (msg : String) : List String → Except Err Unit
  | [] => .ok ()
  | e :: rest => if e = "" then .error (.died msg) else checkListEntries msg rest

/-- The `emulator_env` loop of `config.validate_project_config`: keys
and values must be non-empty strings. -/
def checkEmulatorEnv : List (String × String) → Except Err Unit
  | [] => .ok ()
  | (k, v) :: rest =>
      if k = "" then
        .error (.died "project config emulator_env keys must be non-empty strings")
      else if v = "" then
        .error (.died s!"project config emulator_env {k} must be a non-empty string")
      else checkEmulatorEnv rest

/-- `config.validate_project_config`, in source order: toolchains must
not set `host_path`; winexe wrappers must normalize; `winepath_prepend`
and `bin_aliases` entries and `emulator_env` keys/values must be
non-empty; the vcpkg block must not set the four machine-specific keys.
(The isinstance checks of the source are discharged by typing, and
`fixup_z3_dll` is typed Boolean.) -/
def validate_project_config (cfg : ProjectCfg) : Except Err Unit := do
  checkToolchains (cfg.toolchains.getD [])
  let _ ← normalize_winexe_wrappers (cfg.winexe_wrappers.map .jarr) "project config"
  checkListEntries "project config winepath_prepend entries must be non-empty strings"
    (cfg.winepath_prepend.getD [])
  checkListEntries "project config bin_aliases entries must be non-empty strings"
    (cfg.bin_aliases.getD [])
  checkEmulatorEnv (cfg.emulator_env.getD [])
  let v := cfg.vcpkg.getD {}
  if v.host_root.isSome then
    .error (.died "project config must not set vcpkg host_root")
  else if v.host_binary_cache.isSome then
    .error (.died "project config must not set vcpkg host_binary_cache")
  else if v.container_root.isSome then
    .error (.died "project config must not set vcpkg container_root")
  else if v.container_binary_cache.isSome then
    .error (.died "project config must not set vcpkg container_binary_cache")
  else .ok ()

/-- A mount entry of the build configuration. -/
structure Mount where
  host_path : String
  container_path : String
  read_only : Bool
deriving DecidableEq, Repr

/-- The machine-generated build configuration; `none` models an absent
key. -/
structure BuildCfg where
  version : Option Int := none
  image : Option String := none
  project_root : Option String := none
  state_dir : Option String := none
  build_dir : Option String := none
  generator : Option String := none
  build_type : Option String := none
  profile : Option String := none
  toolchains : Option (List (String × ToolchainEntry)) := none
  mounts : Option (List Mount) := none
  env : Option (List (String × String)) := none
  emulator_env : Option (List (String × String)) := none
  path_prepend : Option (List String) := none
  winepath_prepend : Option (List String) := none
  bin_aliases : Option (List String) := none
  cmake_defaults : Option (List String) := none
  winexe_wrappers : Option (List JVal) := none
  vcpkg : Option VcpkgCfg := none
deriving DecidableEq, Repr

/-- The resolved package-manager block of the effective configuration
(the dict literal of `resolve_effective_config` plus the host/container
keys added when enabled). -/
structure VcpkgOut where
  enabled : Bool
  triplet : String
  packages : List String
  overlay_triplets : List String
  fixup_z3_dll : Bool
  host_root : Option String := none
  host_binary_cache : Option String := none
  container_root : Option String := none
  container_binary_cache : Option String := none
deriving DecidableEq, Repr

/-- The effective configuration returned by
`config.resolve_effective_config`. -/
structure Effective where
  version : Int
  image : String
  project_root : String
  state_dir : String
  build_dir : String
  generator : String
  build_type : String
  config_dir : String
  toolchains : List (String × ToolchainEntry)
  mounts : List Mount
  env : List (String × String)
  emulator_env : List (String × String)
  path_prepend : List String
  vcpkg : VcpkgOut
  cmake_defaults : List String
  winexe_wrappers : List Wrapper
  winepath_prepend : List String
  bin_aliases : List String
deriving DecidableEq, Repr

/-- Outcome of formatting one template string with `str.format`:
`ok` is a complete substitution, `keyError k` is the `KeyError` CPython
raises on the first named replacement field whose name is not among the
keyword arguments, and `unmodelled` covers every other failure or
feature: positional fields (`IndexError`), unmatched braces
(`ValueError`), and fields carrying a conversion, a format spec, or an
attribute/index accessor.  CPython can succeed on some of the latter
(for example a field with a plain format spec), so the model is
conservative: whenever it returns `ok` CPython returns the same string,
and `keyError` agrees with CPython on templates whose fields are bare
named fields. -/
inductive FmtResult where
  | ok (s : String)
  | keyError (k : String)
  | unmodelled
deriving DecidableEq, Repr

/-- Prepend a character to the `ok` payload of a format outcome. -/
def fmtCons (c : Char) : FmtResult → FmtResult
  | .ok s => .ok (String.mk [c] ++ s)
  | r => r

/-- Prepend a string to the `ok` payload of a format outcome. -/
def fmtPre (v : String) : FmtResult → FmtResult
  | .ok s => .ok (v ++ s)
  | r => r

/-- A bare named replacement field: non-empty, not all digits (those
are positional), and free of the conversion/spec/accessor delimiters. -/
def simpleFieldName (f : List Char) : Bool :=
  !f.isEmpty && !(f.all Char.isDigit) &&
    f.all (fun c => c ≠ '!' && c ≠ ':' && c ≠ '.' && c ≠ '[' && c ≠ '{')

/- The scanning loop of `str.format(**mapping)` over the template's
characters, left to right, matching CPython's first-error behaviour:
doubled braces are literal braces, a bare named field is substituted or
raises `KeyError`, everything else is `unmodelled` (`fmtField`
accumulates the field text up to the closing brace; running out of
characters first is CPython's lone-brace `ValueError`). -/
mutual
def fmtGo (m : List (String × String)) : List Char → FmtResult
  | [] => .ok ""
  | '{' :: '{' :: rest => fmtCons '{' (fmtGo m rest)
  | '}' :: '}' :: rest => fmtCons '}' (fmtGo m rest)
  | '{' :: rest => fmtField m [] rest
  | '}' :: _ => .unmodelled
  | c :: rest => fmtCons c (fmtGo m rest)
def fmtField (m : List (String × String)) (acc : List Char) : List Char → FmtResult
  | [] => .unmodelled
  | c :: rest =>
      if c = '}' then
        let f := acc.reverse
        if simpleFieldName f then
          match lookupAssoc m (String.mk f) with
          | some v => fmtPre v (fmtGo m rest)
          | none => .keyError (String.mk f)
        else .unmodelled
      else fmtField m (c :: acc) rest
end

/-- `value.format(**mapping)` on a template string. -/
def pyFormat (value : String) (m : List (String × String)) : FmtResult :=
  fmtGo m value.data

/-- `config._expand_template`: a `KeyError` is caught and turned into
the unknown-placeholder die message (quote characters of the Python
message are omitted); any other exception propagates uncaught. -/
def placeholderMsg (k context value : String) : String :=
  s!"unknown placeholder {k} in {context}: {value}"

def expand_template (value : String) (m : List (String × String)) (context : String) :
    Except Err String :=
  match pyFormat value m with
  | .ok s => .ok s
  | .keyError k => .error (.died (placeholderMsg k context value))
  | .unmodelled => .error .uncaught

/-- `config._expand_list`: each entry must be a non-empty string (the
string type is enforced by the model's typing) and is then expanded. -/
def expand_list (values : List String) (m : List (String × String)) (context : String) :
    Except Err (List String) :=
  match values with
  | [] => .ok []
  | v :: rest =>
      if v = "" then .error (.died s!"{context} entries must be non-empty strings")
      else do
        let e ← expand_template v m context
        let es ← expand_list rest m context
        .ok (e :: es)

/-- `config._expand_dict_values`: each value must be a non-empty string
and is then expanded; keys are kept. -/
def expand_dict_values (values : List (String × String)) (m : List (String × String))
    (context : String) : Except Err (List (String × String)) :=
  match values with
  | [] => .ok []
  | (k, v) :: rest =>
      if v = "" then .error (.died s!"{context} values must be non-empty strings")
      else do
        let e ← expand_template v m context
        let es ← expand_dict_values rest m context
        .ok ((k, e) :: es)

/-- The generated-scripts container directory
(`DEFAULT_CONTAINER_ROOT/STATE_DIRNAME/bin` in
`resolve_effective_config`). -/
def wrapperDir : String := DEFAULT_CONTAINER_ROOT ++ "/" ++ STATE_DIRNAME ++ "/bin"

/-- The wrapper-directory block of `resolve_effective_config`: when any
winexe wrapper is present, the generated-scripts container directory is
moved or prepended to the front of `path_prepend`. -/
def resolvedPathPrepend (path_prepend : List String) (winexe_wrappers : List Wrapper) :
    List String :=
  if winexe_wrappers = [] then path_prepend
  else if wrapperDir ∈ path_prepend then
    wrapperDir :: path_prepend.filter (fun p => p ≠ wrapperDir)
  else wrapperDir :: path_prepend

/-- The package-manager block of `resolve_effective_config`: the
resolved flags with their `or`-chain defaults; when enabled, the
build config must supply truthy `host_root` and `host_binary_cache`
(else it dies) and their container-side equivalents are computed with
`to_container_path` (which itself dies when a path is outside the
root). -/
def resolve_vcpkg (vcpkg_project vcpkg_build : VcpkgCfg) (root : PPath) : Except Err VcpkgOut := do
  let enabled := vcpkg_build.enabled.getD (vcpkg_project.enabled.getD false)
  let base : VcpkgOut :=
    { enabled := enabled
      triplet := (((strTruthy vcpkg_build.triplet).orElse
        fun _ => strTruthy vcpkg_project.triplet).getD "x64-windows")
      packages := (((listTruthy vcpkg_build.packages).orElse
        fun _ => listTruthy vcpkg_project.packages).getD [])
      overlay_triplets := (((listTruthy vcpkg_build.overlay_triplets).orElse
        fun _ => listTruthy vcpkg_project.overlay_triplets).getD [])
      fixup_z3_dll := vcpkg_build.fixup_z3_dll.getD (vcpkg_project.fixup_z3_dll.getD false) }
  if enabled then
    match strTruthy vcpkg_build.host_root, strTruthy vcpkg_build.host_binary_cache with
    | some host_root, some host_cache => do
        let croot ← to_container_path (parsePath host_root) root DEFAULT_CONTAINER_ROOT
        let ccache ← to_container_path (parsePath host_cache) root DEFAULT_CONTAINER_ROOT
        .ok { base with
              host_root := some host_root
              host_binary_cache := some host_cache
              container_root := some croot
              container_binary_cache := some ccache }
    | _, _ =>
        .error (.died "vcpkg enabled but host_root or host_binary_cache is missing in build config")
  else .ok base

/-- `config.resolve_effective_config`, in source order: select and
validate the profiled project config; merge the list/map fields
project-then-build; normalize and merge the winexe wrappers; apply the
wrapper-directory block to `path_prepend`; resolve the package-manager
block; resolve the build directory and the image/generator/build-type
precedence chains; map `config_dir`; assemble the effective dict;
build the placeholder mapping (which maps `state_dir` and `build_dir`
into the container and can die for paths outside the root); expand all
templated fields. -/
def resolve_effective_config (project_cfg : ProjectCfg) (build_cfg : BuildCfg)
    (root : PPath) (project_cfg_path : PPath) : Except Err Effective := do
  let profile := match strTruthy build_cfg.profile with
    | some p => some p
    | none => project_cfg.default_profile
  let pcfg := select_profile project_cfg profile
  validate_project_config pcfg
  let toolchains := merge_toolchains (pcfg.toolchains.getD []) (build_cfg.toolchains.getD [])
  let cmake_defaults := merge_lists (pcfg.cmake_defaults.getD []) (build_cfg.cmake_defaults.getD [])
  let path_prepend := merge_lists (pcfg.path_prepend.getD []) (build_cfg.path_prepend.getD [])
  let env := merge_env (pcfg.env.getD []) (build_cfg.env.getD [])
  let emulator_env := merge_env (pcfg.emulator_env.getD []) (build_cfg.emulator_env.getD [])
  let winepath_prepend :=
    merge_lists (pcfg.winepath_prepend.getD []) (build_cfg.winepath_prepend.getD [])
  let bin_aliases := merge_lists (pcfg.bin_aliases.getD []) (build_cfg.bin_aliases.getD [])
  let winexe_project ← normalize_winexe_wrappers (pcfg.winexe_wrappers.map .jarr) "project config"
  let winexe_build ← normalize_winexe_wrappers (build_cfg.winexe_wrappers.map .jarr) "build config"
  let winexe_wrappers := merge_winexe_wrappers winexe_project winexe_build
  let path_prepend := resolvedPathPrepend path_prepend winexe_wrappers
  let vcpkg_project := pcfg.vcpkg.getD {}
  let vcpkg_build := build_cfg.vcpkg.getD {}
  let build_dir := (((strTruthy build_cfg.build_dir).orElse
    fun _ => strTruthy pcfg.build_dir).getD (pathStr (pathJoin (state_dir root) "build-windows")))
  let build_dir_path :=
    let p := parsePath build_dir
    if p.absolute then p else resolveAbs (pathJoin root build_dir)
  let image := (((strTruthy build_cfg.image).orElse
    fun _ => strTruthy pcfg.image).getD DEFAULT_IMAGE)
  let generator := (((strTruthy build_cfg.generator).orElse
    fun _ => strTruthy pcfg.generator).getD DEFAULT_GENERATOR)
  let build_type := (((strTruthy build_cfg.build_type).orElse
    fun _ => strTruthy pcfg.build_type).getD DEFAULT_BUILD_TYPE)
  let vcpkg_cfg ← resolve_vcpkg vcpkg_project vcpkg_build root
  let config_dir ←
    to_container_path (resolveAbs (pathParent project_cfg_path)) root DEFAULT_CONTAINER_ROOT
  let project_root := build_cfg.project_root.getD (pathStr root)
  let state_dir_s := build_cfg.state_dir.getD (pathStr (state_dir root))
  let mapped_state ← to_container_path (parsePath state_dir_s) root DEFAULT_CONTAINER_ROOT
  let mapped_build ← to_container_path build_dir_path root DEFAULT_CONTAINER_ROOT
  let mapping := [("project_root", DEFAULT_CONTAINER_ROOT), ("state_dir", mapped_state),
    ("build_dir", mapped_build), ("config_dir", config_dir)]
  let path_prepend_x ← expand_list path_prepend mapping "path_prepend"
  let cmake_defaults_x ← expand_list cmake_defaults mapping "cmake_defaults"
  let winepath_prepend_x ← expand_list winepath_prepend mapping "winepath_prepend"
  let env_x ← expand_dict_values env mapping "env"
  let emulator_env_x ← expand_dict_values emulator_env mapping "emulator_env"
  let overlay_x ← expand_list vcpkg_cfg.overlay_triplets mapping "vcpkg.overlay_triplets"
  .ok { version := build_cfg.version.getD 1
        image := image
        project_root := project_root
        state_dir := state_dir_s
        build_dir := pathStr build_dir_path
        generator := generator
        build_type := build_type
        config_dir := config_dir
        toolchains := toolchains
        mounts := build_cfg.mounts.getD []
        env := env_x
        emulator_env := emulator_env_x
        path_prepend := path_prepend_x
        vcpkg := { vcpkg_cfg with overlay_triplets := overlay_x }
        cmake_defaults := cmake_defaults_x
        winexe_wrappers := winexe_wrappers
        winepath_prepend := winepath_prepend_x
        bin_aliases := bin_aliases }

/-- The root-mismatch die message of `docker.docker_cmd_base` (quote
characters aside, the Python f-string text). -/
def rootMismatchMsg (pr rt : String) : String :=
  "config project_root does not match current root: " ++ pr ++ " != " ++ rt

/-- The toolchain-mount loop of `docker.docker_cmd_base`: each entry
needs truthy `host_path` and `container_path` (else it dies) and mounts
read-only iff `read_only` is true (absent defaults to read-write). -/
def dockerToolchainArgs : List (String × ToolchainEntry) → Except Err (List String)
  | [] => .ok []
  | (name, tool) :: rest =>
      match strTruthy tool.host_path, strTruthy tool.container_path with
      | some hp, some cp => do
          let mode := if tool.read_only.getD false then "ro" else "rw"
          let others ← dockerToolchainArgs rest
          .ok (["-v", s!"{hp}:{cp}:{mode}"] ++ others)
      | _, _ => .error (.died s!"toolchain {name} is missing host_path or container_path")

/-- `docker.docker_cmd_base`: the container-run argument vector.  The
uid/gid pair stands in for `os.getuid()`/`os.getgid()`, and the
`xdg-runtime` directory creation (a filesystem side effect) is not
modelled.  The guard comparing the configuration's recorded
`project_root` (resolved) against the current root is the second step,
right after the user mapping. -/
def docker_cmd_base (cfg : Effective) (root : PPath) (interactive : Bool) (uid gid : Nat) :
    Except Err (List String) := do
  let cmd := ["docker", "run", "--rm"]
  let cmd := if interactive then cmd ++ ["-it"] else cmd
  let cmd := cmd ++ ["-u", s!"{uid}:{gid}"]
  let project_root := resolvePathStr cfg.project_root
  if project_root ≠ root then
    .error (.died (rootMismatchMsg (pathStr project_root) (pathStr root)))
  else do
    let pr := pathStr project_root
    let cmd := cmd ++ ["-v", s!"{pr}:{DEFAULT_CONTAINER_ROOT}"]
    let tcArgs ← dockerToolchainArgs cfg.toolchains
    let cmd := cmd ++ tcArgs
    let cmd := cfg.mounts.foldl (fun c m =>
      let mode := if m.read_only then "ro" else "rw"
      let mh := m.host_path
      let mc := m.container_path
      c ++ ["-v", s!"{mh}:{mc}:{mode}"]) cmd
    let state_host := resolvePathStr cfg.state_dir
    let container_state ← to_container_path state_host root DEFAULT_CONTAINER_ROOT
    let env : List (String × String) :=
      [("HOME", container_state ++ "/home"),
       ("XDG_RUNTIME_DIR", container_state ++ "/xdg-runtime"),
       ("WINEPREFIX", container_state ++ "/wine"),
       ("WINEDEBUG", "-all"),
       ("SCCACHE_DIR", container_state ++ "/sccache"),
       ("CMAKE_MT", container_state ++ "/mt-wrapper.sh"),
       ("WINCROSS_STATE_DIR", container_state),
       ("WINCROSS_EMULATOR", container_state ++ "/bin/wincross-emulator")]
    let path_prepend := cfg.path_prepend ++ ["/opt/msvc/bin/x64", "/opt/msvc/bin"]
    let path_prepend := cfg.toolchains.foldl
      (fun pp tool => pp ++ tool.2.path_prepend.getD []) path_prepend
    let path_prepend := dedupe_preserve_order path_prepend
    let base_path := "/usr/local/bin:/usr/bin:/bin"
    let env := updateAssoc env "PATH" (String.intercalate ":" (path_prepend ++ [base_path]))
    let env ←
      if cfg.vcpkg.enabled then
        match cfg.vcpkg.container_root, cfg.vcpkg.container_binary_cache with
        | some croot, some ccache =>
            let env := updateAssoc env "VCPKG_ROOT" croot
            let env := updateAssoc env "VCPKG_TARGET_TRIPLET" cfg.vcpkg.triplet
            let env := updateAssoc env "VCPKG_DEFAULT_BINARY_CACHE" ccache
            let env := updateAssoc env "VCPKG_BINARY_SOURCES" s!"clear;files,{ccache},readwrite"
            let env :=
              if cfg.vcpkg.overlay_triplets ≠ [] then
                updateAssoc env "VCPKG_OVERLAY_TRIPLETS"
                  (String.intercalate ";" cfg.vcpkg.overlay_triplets)
              else env
            pure env
        | _, _ => .error .uncaught
      else pure env
    let env := cfg.env.foldl (fun e kv => updateAssoc e kv.1 kv.2) env
    let cmd := env.foldl (fun c kv =>
      let k := kv.1
      let v := kv.2
      c ++ ["-e", s!"{k}={v}"]) cmd
    let cmd := cmd ++ ["-w", DEFAULT_CONTAINER_ROOT]
    .ok (cmd ++ [cfg.image])

/-- `s.startswith(pre)`, modelled at the character level (Lean's own
`String.startsWith` walks byte positions, which the kernel cannot
reduce). -/
def strStarts (s pre : String) : Bool := pre.data.isPrefixOf s.data

/-- The build-type define `cmake.cmake_args` injects. -/
def buildTypeDefine (bt : String) : String := s!"-DCMAKE_BUILD_TYPE={bt}"

/-- `cmake.cmake_args`: source/build dirs are injected unless an exact
or joined `-S`/`-B` spelling appears in the extra args; the generator
pair is injected when the literal token `-G` is absent from
defaults-plus-extra and the configured generator is truthy; the
build-type define is injected when no element of defaults-plus-extra
carries one of the two checked spellings and the configured build type
is truthy; defaults then extra are appended. -/
def cmake_args (cfg : Effective) (root : PPath) (extra : List String) :
    Except Err (List String) := do
  let args := ["cmake"]
  let has_src := extra.any (fun a => a = "-S" || strStarts a "-S")
  let has_build := extra.any (fun a => a = "-B" || strStarts a "-B")
  let args := if has_src then args else args ++ ["-S", DEFAULT_CONTAINER_ROOT]
  let args ←
    if has_build then pure args
    else do
      let container_build ←
        to_container_path (resolvePathStr cfg.build_dir) root DEFAULT_CONTAINER_ROOT
      pure (args ++ ["-B", container_build])
  let defaults := cfg.cmake_defaults
  let combined := defaults ++ extra
  let args :=
    if cfg.generator ≠ "" && !combined.contains "-G" then args ++ ["-G", cfg.generator]
    else args
  let args :=
    if cfg.build_type ≠ "" &&
        !combined.any (fun a =>
          strStarts a "-DCMAKE_BUILD_TYPE=" || strStarts a "-DCMAKE_BUILD_TYPE:") then
      args ++ [buildTypeDefine cfg.build_type]
    else args
  .ok (args ++ defaults ++ extra)

/-- `cmake.build_args`: `--parallel` is injected unless extra already
carries `--parallel`, `-j`, or a `-j`-joined value. -/
def build_args (cfg : Effective) (root : PPath) (extra : List String) :
    Except Err (List String) := do
  let container_build ←
    to_container_path (resolvePathStr cfg.build_dir) root DEFAULT_CONTAINER_ROOT
  let args := ["cmake", "--build", container_build]
  let args :=
    if extra.any (fun a => a = "--parallel" || a = "-j" || strStarts a "-j") then args
    else args ++ ["--parallel"]
  .ok (args ++ extra)

/-- `cmake.test_args`: `--output-on-failure` is injected unless extra
already contains exactly that token. -/
def test_args (cfg : Effective) (root : PPath) (extra : List String) :
    Except Err (List String) := do
  let container_build ←
    to_container_path (resolvePathStr cfg.build_dir) root DEFAULT_CONTAINER_ROOT
  let args := ["ctest", "--test-dir", container_build]
  let args := if extra.contains "--output-on-failure" then args else args ++ ["--output-on-failure"]
  .ok (args ++ extra)

/-- A lowercase hexadecimal digit. -/
def hexDigit (n : Nat) : Char :=
  if n < 10 then Char.ofNat (48 + n) else Char.ofNat (87 + n)

/-- Four lowercase hexadecimal digits. -/
def hex4 (n : Nat) : String :=
  String.mk [hexDigit (n / 4096 % 16), hexDigit (n / 256 % 16), hexDigit (n / 16 % 16),
    hexDigit (n % 16)]

/-- The `\uXXXX` escape `json.dumps` (with its default `ensure_ascii`)
emits for a non-printable or non-ASCII character, as a surrogate pair
beyond the basic plane. -/
def uEscape (c : Char) : String :=
  let n := c.toNat
  if n ≤ 0xFFFF then "\\u" ++ hex4 n
  else
    let m := n - 0x10000
    "\\u" ++ hex4 (0xD800 + m / 1024) ++ "\\u" ++ hex4 (0xDC00 + m % 1024)

/-- One character of a JSON string literal as `json.dumps` emits it. -/
def jsonEscapeChar (c : Char) : String :=
  if c = '"' then "\\\""
  else if c = '\\' then "\\\\"
  else if c = '\n' then "\\n"
  else if c = '\r' then "\\r"
  else if c = '\t' then "\\t"
  else if c = Char.ofNat 8 then "\\b"
  else if c = Char.ofNat 12 then "\\f"
  else if c.toNat < 32 || c.toNat > 126 then uEscape c
  else String.mk [c]

/-- A JSON string literal as `json.dumps` emits it. -/
def jsonStr (s : String) : String :=
  "\"" ++ String.join (s.data.map jsonEscapeChar) ++ "\""

/-- Sort an object's pairs by key, as `sorted(dct.items())` does under
`sort_keys=True` (keys of a dict are unique, so the stable sort's
result is determined by the keys alone and any sorting algorithm
produces it; insertion sort is used for kernel reducibility). -/
def sortPairs (kvs : List (String × JVal)) : List (String × JVal) :=
  kvs.insertionSort (fun a b => a.1 ≤ b.1)

/- Sort every object of a JSON tree by key, values first.  `json.dumps`
with `sort_keys=True` sorts each object's items as it renders; since
rendering a value never touches the enclosing keys, that equals sorting
the whole tree first and rendering without sorting, which is how the
model is phrased (the rendering itself is `renderJ`). -/
mutual
def normJ : JVal → JVal
  | .jarr xs => .jarr (normItems xs)
  | .jobj kvs => .jobj (sortPairs (normPairs kvs))
  | v => v
def normItems : List JVal → List JVal
  | [] => []
  | x :: xs => normJ x :: normItems xs
def normPairs : List (String × JVal) → List (String × JVal)
  | [] => []
  | (k, v) :: xs => (k, normJ v) :: normPairs xs
end

/-- The indentation `json.dumps(..., indent=2)` puts before an element
nested at the given level. -/
def indentStr (lvl : Nat) : String := String.mk (List.replicate (2 * lvl) ' ')

/- Render a (pre-sorted) JSON tree exactly as
`json.dumps(data, indent=2)` lays it out: empty containers collapse,
items sit one per line at the next level, the closing bracket returns
to the current level, keys are joined with `": "`. -/
mutual
def renderJ : Nat → JVal → String
  | _, .jnull => "null"
  | _, .jbool b => if b then "true" else "false"
  | _, .jnum n => toString n
  | _, .jstr s => jsonStr s
  | lvl, .jarr xs =>
      match xs with
      | [] => "[]"
      | _ => "[\n" ++ renderItems (lvl + 1) xs ++ "\n" ++ indentStr lvl ++ "]"
  | lvl, .jobj kvs =>
      match kvs with
      | [] => "\x7b\x7d"
      | _ => "\x7b\n" ++ renderPairs (lvl + 1) kvs ++ "\n" ++ indentStr lvl ++ "\x7d"
def renderItems : Nat → List JVal → String
  | _, [] => ""
  | lvl, [x] => indentStr lvl ++ renderJ lvl x
  | lvl, x :: xs => indentStr lvl ++ renderJ lvl x ++ ",\n" ++ renderItems lvl xs
def renderPairs : Nat → List (String × JVal) → String
  | _, [] => ""
  | lvl, [(k, v)] => indentStr lvl ++ jsonStr k ++ ": " ++ renderJ lvl v
  | lvl, (k, v) :: kvs =>
      indentStr lvl ++ jsonStr k ++ ": " ++ renderJ lvl v ++ ",\n" ++ renderPairs lvl kvs
end

/-- `json.dumps(data, indent=2, sort_keys=True)`. -/
def dumps (data : JVal) : String := renderJ 0 (normJ data)

/- Python `==` on parsed JSON data: recursive, and order-insensitive on
objects (two dicts are equal when they have the same length and every
key of the first maps to an equal value in the second). -/
mutual
def pyEq : JVal → JVal → Bool
  | .jnull, .jnull => true
  | .jbool a, .jbool b => a == b
  | .jnum a, .jnum b => a == b
  | .jstr a, .jstr b => a == b
  | .jarr xs, .jarr ys => pyEqList xs ys
  | .jobj xs, .jobj ys => xs.length == ys.length && pyEqPairs xs ys
  | _, _ => false
def pyEqList : List JVal → List JVal → Bool
  | [], [] => true
  | x :: xs, y :: ys => pyEq x y && pyEqList xs ys
  | _, _ => false
def pyEqPairs : List (String × JVal) → List (String × JVal) → Bool
  | [], _ => true
  | (k, v) :: rest, other =>
      (match jlookup other k with
       | some v2 => pyEq v v2
       | none => false) && pyEqPairs rest other
end

/- Unique keys at every object of a JSON tree — automatic for data that
came from a Python dict, stated explicitly because the model's object
type is a plain pair list. -/
mutual
def jNoDup : JVal → Bool
  | .jarr xs => jNoDupList xs
  | .jobj kvs => decide (kvs.map Prod.fst).Nodup && jNoDupPairs kvs
  | _ => true
def jNoDupList : List JVal → Bool
  | [] => true
  | x :: xs => jNoDup x && jNoDupList xs
def jNoDupPairs : List (String × JVal) → Bool
  | [] => true
  | (_, v) :: xs => jNoDup v && jNoDupPairs xs
end

/-- The written content store: a map from path strings to file
contents. -/
abbrev FS := List (String × String)

/-- The message `write_config` dies with on an existing target. -/
def configExistsMsg (path : String) : String :=
  s!"config already exists: {path} (use --force to overwrite)"

/-- `config.write_config`: refuses to overwrite an existing file unless
forced, otherwise stores the serialized JSON plus a trailing newline
(the parent-directory creation is a filesystem side effect outside the
content map). -/
def write_config (fs : FS) (path : String) (data : JVal) (force : Bool) : Except Err FS :=
  if (lookupAssoc fs path).isSome && !force then
    .error (.died (configExistsMsg path))
  else .ok (updateAssoc fs path (dumps data ++ "\n"))

/-! Theorems settling the claims. -/

/-- The claim's reading of `isUnderRoot`, written from the spec's words
for refinement comparison with the source's `is_under_root`: the
root-relative form must exist and contain no parent-directory (`..`)
component. -/
def specIsUnderRoot (path root : PPath) : Bool :=
  match relativeTo path root with
  | some rel => !rel.contains ".."
  | none => false

/-- C2 counterexample: `/a/../etc` escapes `/a` via a `..` component in
its root-relative form `../etc`, yet `is_under_root` accepts it —
`Path.relative_to` is purely lexical, so the claimed equivalence with
the no-parent-escape reading fails. -/
theorem c2_counterexample :
    is_under_root (parsePath "/a/../etc") (parsePath "/a") = true ∧
    relativeTo (parsePath "/a/../etc") (parsePath "/a") = some ["..", "etc"] ∧
    specIsUnderRoot (parsePath "/a/../etc") (parsePath "/a") = false := by
  refine ⟨by decide, by decide, by decide⟩

/-- C2 (amended): `is_under_root path root` is a purely lexical
containment test — true iff the paths agree on absoluteness and root's
component list is a prefix of path's, with `..` treated as an ordinary
component (so a root-relative form that escapes via `..` is still
accepted); `to_container_path` succeeds exactly on the paths
`is_under_root` accepts. -/
theorem c2_theorem (p r : PPath) :
    (is_under_root p r = (decide (p.absolute = r.absolute) && r.parts.isPrefixOf p.parts)) ∧
    (to_container_path p r DEFAULT_CONTAINER_ROOT).isOk = is_under_root p r := by
  constructor
  · rw [is_under_root, relativeTo]
    by_cases hab : p.absolute = r.absolute <;> by_cases hpre : r.parts <+: p.parts <;>
      simp [hab, hpre, List.isPrefixOf_iff_prefix, Bool.eq_false_iff]
  · simp only [to_container_path, is_under_root]
    cases hrel : relativeTo p r with
    | none => simp [Except.isOk, Except.toBool]
    | some rel => cases rel <;> simp [Except.isOk, Except.toBool]

/-- A fixture effective configuration for witnesses and counterexamples
(root `/proj`, build dir `/proj/b`). -/
def sampleEffective : Effective :=
  { version := 1
    image := "img"
    project_root := "/proj"
    state_dir := "/proj/.wincross"
    build_dir := "/proj/b"
    generator := "Ninja"
    build_type := "Release"
    config_dir := "/work/project"
    toolchains := []
    mounts := []
    env := []
    emulator_env := []
    path_prepend := []
    vcpkg := { enabled := false, triplet := "x64-windows", packages := [],
               overlay_triplets := [], fixup_z3_dll := false }
    cmake_defaults := []
    winexe_wrappers := []
    winepath_prepend := []
    bin_aliases := [] }

/-- C1 counterexample: with a build config recording
`project_root = "/other"` and the detected root `/proj`,
`resolve_effective_config` succeeds and carries the stale root through
instead of failing, refuting the claim that resolution fails on a
mismatch. -/
theorem c1_counterexample :
    (resolve_effective_config {} { project_root := some "/other" }
        (parsePath "/proj") (parsePath "/proj/wincross.toml")).map (fun e => e.project_root)
      = .ok "/other" ∧ ("/other" : String) ≠ pathStr (parsePath "/proj") := by
  refine ⟨by decide, by decide⟩

/-- C1 (amended): `resolve_effective_config` never compares the
recorded project root with the detected root (the counterexample shows
it succeeding on a mismatch); the invariant is enforced when the
container command is built — `docker_cmd_base` fails whenever the
configuration's resolved `project_root` differs from the current
root. -/
theorem c1_theorem (cfg : Effective) (root : PPath) (interactive : Bool) (uid gid : Nat)
    (h : resolvePathStr cfg.project_root ≠ root) :
    docker_cmd_base cfg root interactive uid gid =
      .error (.died (rootMismatchMsg (pathStr (resolvePathStr cfg.project_root))
        (pathStr root))) := by
  unfold docker_cmd_base
  simp [h]

theorem opt_orElse_idem {α : Type} (a b : Option α) :
    ((a.orElse fun _ => b).orElse fun _ => b) = a.orElse fun _ => b := by
  cases a <;> cases b <;> rfl

/-- Lifting legacy nested keys is idempotent: a second
`normalize_project_config` pass changes nothing. -/
theorem normalizeCore_idem (c : ProjectCfgCore) :
    normalizeCore (normalizeCore c) = normalizeCore c := by
  obtain ⟨im, gen, bt, bd, dp, cd, pp, wp, ba, ww, env, ee, tc, vc, cm, wc, pa⟩ := c
  cases cm <;> cases wc <;> cases pa <;>
    simp [normalizeCore, opt_orElse_idem]

theorem normalizeCore_empty : normalizeCore {} = ({} : ProjectCfgCore) := rfl

/-- C1 witness: the guard of `docker_cmd_base` fires on the concrete
mismatch `/other` vs `/proj`. -/
theorem c1_witness :
    resolvePathStr "/other" ≠ parsePath "/proj" ∧
    docker_cmd_base { sampleEffective with project_root := "/other" }
        (parsePath "/proj") false 1000 1000
      = .error (.died (rootMismatchMsg (pathStr (resolvePathStr "/other"))
        (pathStr (parsePath "/proj")))) :=
  ⟨by decide, c1_theorem { sampleEffective with project_root := "/other" }
    (parsePath "/proj") false 1000 1000 (by decide)⟩

/-- C3 counterexample: for a project config declaring a non-empty
overlay for profile `win`, `select_profile(select_profile(cfg, none),
"win")` differs from `select_profile(cfg, "win")`: the inner call pops
the profiles table, so the outer call finds no overlay and the
overlay's `generator` is lost. -/
theorem c3_counterexample :
    select_profile (select_profile { profiles := [("win", { generator := some "Ninja" })] } none)
        (some "win")
      ≠ select_profile { profiles := [("win", { generator := some "Ninja" })] } (some "win") := by
  decide

/-- C3 (amended): the identity
`select_profile (select_profile cfg none) p = select_profile cfg p`
holds exactly in the cases where the profile's overlay contributes
nothing — when `cfg` declares no overlay for `p` or declares the empty
overlay; with a non-empty overlay the left side ignores it (the
counterexample). -/
theorem c3_theorem (cfg : ProjectCfg) (p : String)
    (h : lookupAssoc cfg.profiles p = none ∨ lookupAssoc cfg.profiles p = some {}) :
    select_profile (select_profile cfg none) (some p) = select_profile cfg (some p) := by
  have hov : (lookupAssoc cfg.profiles p).getD {} = ({} : ProjectCfgCore) := by
    rcases h with h | h <;> simp [h]
  by_cases hp : p = ""
  · simp [select_profile, hp, normalize_project_config, normalizeCore_idem]
  · simp [select_profile, hp, hov, normalize_project_config, normalizeCore_idem,
      normalizeCore_empty, lookupAssoc]

/-- C3 witness: the identity at a concrete config with no profiles. -/
theorem c3_witness :
    lookupAssoc (ProjectCfg.profiles {}) "x" = none ∧
    select_profile (select_profile {} none) (some "x") = select_profile {} (some "x") :=
  ⟨rfl, c3_theorem {} "x" (Or.inl rfl)⟩

/-- C4 counterexample: the move-to-front/deduplication of the
generated-scripts directory happens before placeholder expansion, on
the literal strings; a `path_prepend` entry that expands to that
directory survives it, so the effective configuration's `path_prepend`
carries the directory twice. -/
theorem c4_counterexample :
    (resolve_effective_config
        { winexe_wrappers := some [.jobj [("name", .jstr "cl.exe"), ("exe", .jstr "x")]]
          path_prepend := some ["{state_dir}/bin"] }
        {} (parsePath "/proj") (parsePath "/proj/wincross.toml")).map
        (fun e => (e.path_prepend, e.path_prepend.count wrapperDir))
      = .ok ([wrapperDir, wrapperDir], 2) := by
  decide

/-- C4 (amended): the claimed shape holds for the `path_prepend` list
as assembled before placeholder expansion: with at least one wrapper it
is exactly the generated-scripts directory followed by the merged
project-then-build entries with every literal occurrence of that
directory removed — so the directory occurs exactly once, first, with
the relative order of all other entries preserved; with no wrapper the
list is exactly the merged concatenation.  The effective
configuration's `path_prepend` is the placeholder expansion of this
list, in which an entry expanding to the directory may duplicate it
(the counterexample). -/
theorem c4_theorem (pp : List String) (ws : List Wrapper) :
    (resolvedPathPrepend pp ws =
      if ws = [] then pp else wrapperDir :: pp.filter (fun q => q ≠ wrapperDir)) ∧
    (ws ≠ [] →
      (resolvedPathPrepend pp ws).count wrapperDir = 1 ∧
      (resolvedPathPrepend pp ws).head? = some wrapperDir ∧
      (resolvedPathPrepend pp ws).tail = pp.filter (fun q => q ≠ wrapperDir)) := by
  have hcount : (pp.filter (fun q => !decide (q = wrapperDir))).count wrapperDir = 0 := by
    rw [List.count_eq_zero]
    simp [List.mem_filter]
  by_cases hws : ws = []
  · simp [resolvedPathPrepend, hws]
  · by_cases hmem : wrapperDir ∈ pp
    · refine ⟨by simp [resolvedPathPrepend, hws, hmem], fun _ => ?_⟩
      refine ⟨?_, by simp [resolvedPathPrepend, hws, hmem], by simp [resolvedPathPrepend, hws, hmem]⟩
      simpa [resolvedPathPrepend, hws, hmem] using hcount
    · have hs : pp.filter (fun q => !decide (q = wrapperDir)) = pp := by
        apply List.filter_eq_self.2
        intro a ha
        simp only [Bool.not_eq_true', decide_eq_false_iff_not]
        intro hq; exact hmem (hq ▸ ha)
      have hc0 : pp.count wrapperDir = 0 := List.count_eq_zero.2 hmem
      refine ⟨by simp [resolvedPathPrepend, hws, hmem, hs], fun _ => ?_⟩
      refine ⟨by simp [resolvedPathPrepend, hws, hmem, hc0], ?_, ?_⟩ <;>
        simp [resolvedPathPrepend, hws, hmem, hs]

/-- C4 witness: the amended shape at a concrete list that already
contains the generated-scripts directory. -/
theorem c4_witness :
    ([⟨"cl.exe", "x", false⟩] : List Wrapper) ≠ [] ∧
    (resolvedPathPrepend [wrapperDir, "/x"] [⟨"cl.exe", "x", false⟩]).count wrapperDir = 1 ∧
    (resolvedPathPrepend [wrapperDir, "/x"] [⟨"cl.exe", "x", false⟩]).head? = some wrapperDir ∧
    (resolvedPathPrepend [wrapperDir, "/x"] [⟨"cl.exe", "x", false⟩]).tail =
      List.filter (fun q => q ≠ wrapperDir) [wrapperDir, "/x"] :=
  ⟨by decide, (c4_theorem [wrapperDir, "/x"] [⟨"cl.exe", "x", false⟩]).2 (by decide)⟩

/-- C5 counterexample: `-GNinja` is an accepted CMake spelling of the
generator flag (a `-G`-joined value, exactly the joined form the same
function honours for `-S`/`-B`), yet `cmake_args` only looks for the
bare token `-G`, so it injects the default generator pair anyway and
the resulting vector specifies a generator twice. -/
theorem c5_counterexample :
    strStarts "-GNinja" "-G" = true ∧
    cmake_args sampleEffective (parsePath "/proj") ["-GNinja"]
      = .ok ["cmake", "-S", "/work/project", "-B", "/work/project/b", "-G", "Ninja",
             "-DCMAKE_BUILD_TYPE=Release", "-GNinja"] := by
  refine ⟨by decide, by decide⟩

/-- C5 (amended): defaults are injected exactly when the spellings the
code checks are absent — the literal token `-G` in defaults-plus-extra
for the generator, the two define prefixes for the build type, exact
`-S`/`-B` or their joined forms for the directories, exact
`--parallel`/`-j` or `-j`-joined for parallelism, and the exact
`--output-on-failure` token — so user values in those spellings are
never duplicated, but equivalent spellings the code does not check
(such as a `-G`-joined generator) do not suppress injection. -/
theorem c5_theorem (cfg : Effective) (root : PPath) (extra : List String) :
    (∀ out, cmake_args cfg root extra = .ok out →
      ∃ dirB,
        (out = ["cmake"]
          ++ (if extra.any (fun a => a = "-S" || strStarts a "-S") then []
              else ["-S", DEFAULT_CONTAINER_ROOT])
          ++ dirB
          ++ (if cfg.generator ≠ "" && !(cfg.cmake_defaults ++ extra).contains "-G"
              then ["-G", cfg.generator] else [])
          ++ (if cfg.build_type ≠ "" &&
                !(cfg.cmake_defaults ++ extra).any (fun a =>
                  strStarts a "-DCMAKE_BUILD_TYPE=" || strStarts a "-DCMAKE_BUILD_TYPE:")
              then [buildTypeDefine cfg.build_type] else [])
          ++ cfg.cmake_defaults ++ extra) ∧
        (extra.any (fun a => a = "-B" || strStarts a "-B") = true → dirB = []) ∧
        (extra.any (fun a => a = "-B" || strStarts a "-B") = false →
          ∃ cb, to_container_path (resolvePathStr cfg.build_dir) root DEFAULT_CONTAINER_ROOT
              = .ok cb ∧ dirB = ["-B", cb])) ∧
    (∀ out, build_args cfg root extra = .ok out →
      ∃ cb, to_container_path (resolvePathStr cfg.build_dir) root DEFAULT_CONTAINER_ROOT = .ok cb ∧
        out = ["cmake", "--build", cb]
          ++ (if extra.any (fun a => a = "--parallel" || a = "-j" || strStarts a "-j") then []
              else ["--parallel"]) ++ extra) ∧
    (∀ out, test_args cfg root extra = .ok out →
      ∃ cb, to_container_path (resolvePathStr cfg.build_dir) root DEFAULT_CONTAINER_ROOT = .ok cb ∧
        out = ["ctest", "--test-dir", cb]
          ++ (if extra.contains "--output-on-failure" then [] else ["--output-on-failure"])
          ++ extra) := by
  refine ⟨?_, ?_, ?_⟩
  · intro out h
    unfold cmake_args at h
    simp only [bind, Except.bind, pure, Except.pure] at h
    by_cases hB : extra.any (fun a => a = "-B" || strStarts a "-B") = true
    · rw [if_pos hB] at h
      cases h
      refine ⟨[], ?_, fun _ => rfl, ?_⟩
      · by_cases hS : extra.any (fun a => a = "-S" || strStarts a "-S") = true <;>
          simp only [hS, hB, if_true, if_false, Bool.false_eq_true, List.append_nil,
            List.nil_append, List.append_assoc, List.cons_append] <;>
          split_ifs <;> simp
      · intro hc
        rw [hc] at hB
        simp at hB
    · rw [if_neg hB] at h
      cases hmap : to_container_path (resolvePathStr cfg.build_dir) root DEFAULT_CONTAINER_ROOT with
      | error e => rw [hmap] at h; cases h
      | ok cb =>
          rw [hmap] at h
          cases h
          refine ⟨["-B", cb], ?_, ?_, fun _ => ⟨cb, rfl, rfl⟩⟩
          · by_cases hS : extra.any (fun a => a = "-S" || strStarts a "-S") = true <;>
              simp only [hS, eq_false_of_ne_true hB, if_true, if_false, Bool.false_eq_true,
                List.append_nil, List.nil_append, List.append_assoc, List.cons_append] <;>
              split_ifs <;> simp
          · intro hc
            exact absurd hc hB
  · intro out h
    unfold build_args at h
    simp only [bind, Except.bind, pure, Except.pure] at h
    cases hmap : to_container_path (resolvePathStr cfg.build_dir) root DEFAULT_CONTAINER_ROOT with
    | error e => rw [hmap] at h; cases h
    | ok cb =>
        rw [hmap] at h
        cases h
        refine ⟨cb, rfl, ?_⟩
        by_cases hP : extra.any (fun a => a = "--parallel" || a = "-j" || strStarts a "-j") = true <;>
          simp [hP]
  · intro out h
    unfold test_args at h
    simp only [bind, Except.bind, pure, Except.pure] at h
    cases hmap : to_container_path (resolvePathStr cfg.build_dir) root DEFAULT_CONTAINER_ROOT with
    | error e => rw [hmap] at h; cases h
    | ok cb =>
        rw [hmap] at h
        cases h
        refine ⟨cb, rfl, ?_⟩
        by_cases hO : ("--output-on-failure" : String) ∈ extra <;> simp [hO]

/-- C5 witness: the characterization at the fixture configuration with
a user-supplied exact `-G` token (no generator pair injected) and an
exact `--parallel` (no parallelism flag injected). -/
theorem c5_witness :
    cmake_args sampleEffective (parsePath "/proj") ["-G", "Ninja"]
      = .ok ["cmake", "-S", "/work/project", "-B", "/work/project/b",
             "-DCMAKE_BUILD_TYPE=Release", "-G", "Ninja"] ∧
    build_args sampleEffective (parsePath "/proj") ["--parallel"]
      = .ok ["cmake", "--build", "/work/project/b", "--parallel"] ∧
    (∃ dirB,
        (["cmake", "-S", "/work/project", "-B", "/work/project/b",
          "-DCMAKE_BUILD_TYPE=Release", "-G", "Ninja"] = ["cmake"]
          ++ (if (["-G", "Ninja"] : List String).any (fun a => a = "-S" || strStarts a "-S") then []
              else ["-S", DEFAULT_CONTAINER_ROOT])
          ++ dirB
          ++ (if sampleEffective.generator ≠ "" &&
                !(sampleEffective.cmake_defaults ++ ["-G", "Ninja"]).contains "-G"
              then ["-G", sampleEffective.generator] else [])
          ++ (if sampleEffective.build_type ≠ "" &&
                !(sampleEffective.cmake_defaults ++ ["-G", "Ninja"]).any (fun a =>
                  strStarts a "-DCMAKE_BUILD_TYPE=" || strStarts a "-DCMAKE_BUILD_TYPE:")
              then [buildTypeDefine sampleEffective.build_type] else [])
          ++ sampleEffective.cmake_defaults ++ ["-G", "Ninja"]) ∧
        ((["-G", "Ninja"] : List String).any (fun a => a = "-B" || strStarts a "-B") = true →
          dirB = []) ∧
        ((["-G", "Ninja"] : List String).any (fun a => a = "-B" || strStarts a "-B") = false →
          ∃ cb, to_container_path (resolvePathStr sampleEffective.build_dir) (parsePath "/proj")
              DEFAULT_CONTAINER_ROOT = .ok cb ∧ dirB = ["-B", cb])) :=
  ⟨by decide, by decide,
    (c5_theorem sampleEffective (parsePath "/proj") ["-G", "Ninja"]).1 _ (by decide)⟩


/-- A structured template piece, the vocabulary in which the simple
fragment of `str.format` is characterized: literal text or a bare named
replacement field. -/
inductive TPiece where
  | lit (s : String)
  | field (name : String)
deriving DecidableEq, Repr

/-- Render pieces back into the template string (fields wrapped in
braces). -/
def renderT : List TPiece → String
  | [] => ""
  | .lit s :: ps => s ++ renderT ps
  | .field n :: ps => "\x7b" ++ n ++ "\x7d" ++ renderT ps

/-- Well-formedness of a piece: literal text is brace-free; a field
name is a bare named field with no closing brace. -/
def pieceOk : TPiece → Bool
  | .lit s => s.data.all (fun c => c ≠ '\x7b' && c ≠ '\x7d')
  | .field n => simpleFieldName n.data && n.data.all (fun c => c ≠ '\x7d')

/-- The first field name not bound by the mapping, scanning left to
right — the key CPython's `KeyError` carries. -/
def firstMissing (m : List (String × String)) : List TPiece → Option String
  | [] => none
  | .lit _ :: ps => firstMissing m ps
  | .field n :: ps => if (lookupAssoc m n).isSome then firstMissing m ps else some n

/-- Full substitution of a piece list (the result when every field is
bound). -/
def substT (m : List (String × String)) : List TPiece → String
  | [] => ""
  | .lit s :: ps => s ++ substT m ps
  | .field n :: ps => (lookupAssoc m n).getD "" ++ substT m ps

theorem fmtPre_empty (r : FmtResult) : fmtPre "" r = r := by
  cases r <;> rfl

theorem fmtCons_pre (c : Char) (s : String) (r : FmtResult) :
    fmtCons c (fmtPre s r) = fmtPre (String.mk (c :: s.data)) r := by
  cases r <;> rfl

theorem fmtGo_step (m : List (String × String)) (c : Char) (l : List Char)
    (h1 : c ≠ '\x7b') (h2 : c ≠ '\x7d') :
    fmtGo m (c :: l) = fmtCons c (fmtGo m l) := by
  rw [fmtGo.eq_def]
  split <;> simp_all

theorem fmtGo_lit (m : List (String × String)) (cs : List Char)
    (h : ∀ c ∈ cs, c ≠ '\x7b' ∧ c ≠ '\x7d') (rest : List Char) :
    fmtGo m (cs ++ rest) = fmtPre (String.mk cs) (fmtGo m rest) := by
  induction cs with
  | nil => simp [fmtPre_empty]
  | cons c cs ih =>
      have hc := h c (by simp)
      have hrec := ih (fun x hx => h x (by simp [hx]))
      rw [List.cons_append, fmtGo_step m c _ hc.1 hc.2, hrec, fmtCons_pre]

theorem fmtGo_field_start (m : List (String × String)) (c : Char) (l : List Char)
    (hc : c ≠ '\x7b') :
    fmtGo m ('\x7b' :: c :: l) = fmtField m [] (c :: l) := by
  conv_lhs => rw [fmtGo.eq_def]
  split
  · rename_i heq; exact absurd heq (by simp)
  · rename_i heq
    injection heq with e1 e2
    injection e2 with f1 f2
    exact absurd f1 hc
  · rename_i heq; exact absurd heq (by simp)
  · rename_i heq
    injection heq with e1 e2
    rw [← e2]
  · rename_i heq; exact absurd heq (by simp)
  · rename_i hn1 hn2 heq
    injection heq with e1 e2
    exact absurd e1.symm hn1

theorem fmtField_acc (m : List (String × String)) (f : List Char)
    (h : ∀ c ∈ f, c ≠ '\x7d') (acc rest : List Char) :
    fmtField m acc (f ++ '\x7d' :: rest) =
      (if simpleFieldName (acc.reverse ++ f) then
         match lookupAssoc m (String.mk (acc.reverse ++ f)) with
         | some v => fmtPre v (fmtGo m rest)
         | none => .keyError (String.mk (acc.reverse ++ f))
       else .unmodelled) := by
  induction f generalizing acc with
  | nil =>
      rw [List.nil_append, fmtField.eq_def]
      simp
  | cons c f ih =>
      have hc : c ≠ '\x7d' := h c (by simp)
      rw [List.cons_append, fmtField.eq_def]
      simp only [if_neg hc]
      rw [ih (fun x hx => h x (by simp [hx])) (c :: acc)]
      simp [List.reverse_cons, List.append_assoc]

theorem fmtGo_renderT (m : List (String × String)) (ps : List TPiece)
    (hok : ∀ p ∈ ps, pieceOk p = true) :
    fmtGo m (renderT ps).data =
      (match firstMissing m ps with
       | some k => FmtResult.keyError k
       | none => .ok (substT m ps)) := by
  induction ps with
  | nil => rfl
  | cons p ps ih =>
      have hps : ∀ q ∈ ps, pieceOk q = true := fun q hq => hok q (List.mem_cons_of_mem _ hq)
      have hp : pieceOk p = true := hok p (List.mem_cons_self _ _)
      have ihr := ih hps
      cases p with
      | lit s =>
          have hchars : ∀ c ∈ s.data, c ≠ '\x7b' ∧ c ≠ '\x7d' := by
            simp only [pieceOk, List.all_eq_true, Bool.and_eq_true, decide_eq_true_eq] at hp
            intro c hc
            have := hp c hc
            simp_all
          have hdata : (renderT (TPiece.lit s :: ps)).data = s.data ++ (renderT ps).data := rfl
          rw [hdata, fmtGo_lit m s.data hchars, ihr]
          cases hfm : firstMissing m ps with
          | some k => simp [firstMissing, hfm, fmtPre]
          | none => simp [firstMissing, hfm, fmtPre, substT]
      | field n =>
          simp only [pieceOk, Bool.and_eq_true, List.all_eq_true, decide_eq_true_eq] at hp
          obtain ⟨hsf, hnb⟩ := hp
          have hne : n.data ≠ [] := by
            intro h0
            rw [simpleFieldName, h0] at hsf
            simp at hsf
          obtain ⟨c0, nt, hsplit⟩ : ∃ c0 nt, n.data = c0 :: nt := by
            cases hd : n.data with
            | nil => exact absurd hd hne
            | cons a b => exact ⟨a, b, rfl⟩
          have hc0 : c0 ≠ '\x7b' := by
            rw [simpleFieldName, hsplit] at hsf
            simp only [Bool.and_eq_true, List.all_eq_true, List.mem_cons] at hsf
            have := hsf.2 c0 (Or.inl rfl)
            simp_all
          have hdata : (renderT (TPiece.field n :: ps)).data =
              '\x7b' :: (n.data ++ '\x7d' :: (renderT ps).data) := by
            show ("\x7b" ++ n ++ "\x7d" ++ renderT ps).data = _
            simp [String.data_append]
          rw [hdata, hsplit, List.cons_append, fmtGo_field_start m c0 _ hc0,
            ← List.cons_append, ← hsplit, fmtField_acc m n.data hnb []]
          simp only [List.reverse_nil, List.nil_append, hsf, if_true]
          have hmk : String.mk n.data = n := rfl
          rw [hmk]
          cases hlk : lookupAssoc m n with
          | some v =>
              rw [ihr]
              cases hfm : firstMissing m ps with
              | some k => simp [firstMissing, hlk, hfm, fmtPre]
              | none => simp [firstMissing, hlk, hfm, fmtPre, substT]
          | none => simp [firstMissing, hlk]


/-- C6 counterexample: the positional placeholder `0` is outside the
mapping, yet expansion does not fail with the unknown-placeholder die
message — CPython raises `IndexError`, which the `except KeyError`
handler does not catch, so the error propagates uncaught. -/
theorem c6_counterexample :
    expand_template "\x7b0\x7d"
        [("project_root", DEFAULT_CONTAINER_ROOT), ("state_dir", "/work/project/.wincross"),
         ("build_dir", "/work/project/b"), ("config_dir", DEFAULT_CONTAINER_ROOT)]
        "path_prepend"
      = .error .uncaught ∧
    ∀ msg, (Err.uncaught : Err) ≠ .died msg := by
  exact ⟨by decide, fun msg h => Err.noConfusion h⟩

/-- C6 (amended): for templates whose replacement fields are bare named
placeholders, expansion fails with the unknown-placeholder message
naming the first out-of-mapping key and the offending template whenever
some field references a key outside the mapping, and otherwise returns
the fully substituted string — never a partial substitution; positional
placeholders such as `0` instead raise an error the code does not
catch (the counterexample), and conversions, format specs, or accessor
suffixes are outside this fragment. -/
theorem c6_theorem (m : List (String × String)) (ps : List TPiece) (context : String)
    (hok : ∀ p ∈ ps, pieceOk p = true) :
    expand_template (renderT ps) m context =
      match firstMissing m ps with
      | some k => .error (.died (placeholderMsg k context (renderT ps)))
      | none => .ok (substT m ps) := by
  unfold expand_template pyFormat
  rw [fmtGo_renderT m ps hok]
  cases firstMissing m ps <;> rfl

/-- C6 witness: a template with one bound and one unbound field dies
naming the unbound key, and a fully bound template substitutes. -/
theorem c6_witness :
    (∀ p ∈ [TPiece.lit "a/", TPiece.field "nope"], pieceOk p = true) ∧
    expand_template (renderT [TPiece.lit "a/", TPiece.field "nope"])
        [("project_root", "/w")] "path_prepend"
      = .error (.died (placeholderMsg "nope" "path_prepend"
          (renderT [TPiece.lit "a/", TPiece.field "nope"]))) ∧
    expand_template (renderT [TPiece.field "project_root", TPiece.lit "/x"])
        [("project_root", "/w")] "env"
      = .ok "/w/x" :=
  ⟨by decide,
   c6_theorem [("project_root", "/w")] [TPiece.lit "a/", TPiece.field "nope"]
     "path_prepend" (by decide),
   c6_theorem [("project_root", "/w")] [TPiece.field "project_root", TPiece.lit "/x"]
     "env" (by decide)⟩


theorem splitSlash_no_slash (cs : List Char) : ∀ cur, '/' ∉ cur →
    ∀ piece ∈ splitSlash cur cs, '/' ∉ piece := by
  induction cs with
  | nil =>
      intro cur hcur piece hp
      simp [splitSlash] at hp
      subst hp
      simp only [List.mem_reverse]
      exact hcur
  | cons c rest ih =>
      intro cur hcur piece hp
      by_cases hc : c = '/'
      · rw [splitSlash, if_pos hc] at hp
        rcases List.mem_cons.1 hp with h1 | h2
        · subst h1; simp only [List.mem_reverse]; exact hcur
        · exact ih [] (by simp) piece h2
      · rw [splitSlash, if_neg hc] at hp
        refine ih (c :: cur) ?_ piece hp
        intro hmem
        rcases List.mem_cons.1 hmem with h1 | h2
        · exact hc h1.symm
        · exact hcur h2

theorem parsePath_parts_no_slash (s : String) :
    ∀ part ∈ (parsePath s).parts, '/' ∉ part.data := by
  intro part hpart
  simp only [parsePath, List.mem_filter, List.mem_map] at hpart
  obtain ⟨⟨piece, hpiece, hmk⟩, _⟩ := hpart
  have := splitSlash_no_slash s.data [] (by simp) piece hpiece
  rw [← hmk]
  exact this

theorem pathName_eq_no_slash (n : String) (hne : pyStrip n ≠ "")
    (heq : pathName (parsePath n) = n) : '/' ∉ n.data := by
  cases hlast : (parsePath n).parts.getLast? with
  | none =>
      rw [pathName, hlast] at heq
      rw [← heq] at hne
      simp [pyStrip] at hne
  | some l =>
      rw [pathName, hlast] at heq
      have hmem : l ∈ (parsePath n).parts := List.mem_of_mem_getLast? hlast
      have := parsePath_parts_no_slash n l hmem
      rw [← heq]
      exact this


/-- Whether a raw wrapper item fails the name check — the first check
run for an entry: the name is missing, not a string, whitespace-only,
or not its own pathlib basename. -/
def wrapperNameBad : JVal → Bool
  | .jobj fields =>
      match jlookup fields "name" with
      | some (.jstr n) => pyStrip n = "" || pathName (parsePath n) ≠ n
      | _ => true
  | _ => false

/-- The `msvc_env` flag an entry's fields yield: the Boolean when the
key holds one, `false` when the key is absent (the default). -/
def wrapperMsvcOf (fields : List (String × JVal)) : Bool :=
  match jlookup fields "msvc_env" with
  | some (.jbool b) => b
  | _ => false

theorem normalizeItems_ok_spec (ctx : String) (items : List JVal) :
    ∀ i ws, normalizeWinexeItems ctx i items = .ok ws →
      ws.length = items.length ∧
      ∀ j, j < ws.length →
        ∃ fields name exe,
          items[j]? = some (.jobj fields) ∧
          jlookup fields "name" = some (.jstr name) ∧
          jlookup fields "exe" = some (.jstr exe) ∧
          pyStrip name ≠ "" ∧ pathName (parsePath name) = name ∧
          pyStrip exe ≠ "" ∧
          ws[j]? = some { name := name, exe := exe, msvc_env := wrapperMsvcOf fields } := by
  induction items with
  | nil =>
      intro i ws h
      simp only [normalizeWinexeItems] at h
      cases h
      simp
  | cons item rest ih =>
      intro i ws h
      cases item with
      | jobj fields =>
          simp only [normalizeWinexeItems] at h
          cases hname : jlookup fields "name" with
          | none => simp [hname] at h
          | some nv =>
              cases nv with
              | jstr n =>
                  simp only [hname] at h
                  by_cases hstrip : pyStrip n = ""
                  · simp [if_pos hstrip] at h
                  · rw [if_neg hstrip] at h
                    by_cases hbase : pathName (parsePath n) ≠ n
                    · simp [if_pos hbase] at h
                    · rw [if_neg hbase] at h
                      cases hexe : jlookup fields "exe" with
                      | none => simp [hexe] at h
                      | some ev =>
                          cases ev with
                          | jstr e =>
                              simp only [hexe] at h
                              by_cases hestrip : pyStrip e = ""
                              · simp [if_pos hestrip] at h
                              · rw [if_neg hestrip] at h
                                cases hmsvc : jlookup fields "msvc_env" with
                                | none =>
                                    simp only [hmsvc] at h
                                    cases hrec : normalizeWinexeItems ctx (i + 1) rest with
                                    | error err => simp [hrec, Except.map] at h
                                    | ok tail =>
                                        simp only [hrec, Except.map] at h
                                        cases h
                                        obtain ⟨hlen, hidx⟩ := ih (i + 1) tail hrec
                                        refine ⟨by simp [hlen], ?_⟩
                                        intro j hj
                                        cases j with
                                        | zero =>
                                            refine ⟨fields, n, e, by simp, hname, hexe,
                                              hstrip, not_not.1 hbase, hestrip, ?_⟩
                                            simp [wrapperMsvcOf, hmsvc]
                                        | succ j =>
                                            have := hidx j (by simpa using hj)
                                            simpa using this
                                | some mv =>
                                    cases mv with
                                    | jbool b =>
                                        simp only [hmsvc] at h
                                        cases hrec : normalizeWinexeItems ctx (i + 1) rest with
                                        | error err => simp [hrec, Except.map] at h
                                        | ok tail =>
                                            simp only [hrec, Except.map] at h
                                            cases h
                                            obtain ⟨hlen, hidx⟩ := ih (i + 1) tail hrec
                                            refine ⟨by simp [hlen], ?_⟩
                                            intro j hj
                                            cases j with
                                            | zero =>
                                                refine ⟨fields, n, e, by simp, hname, hexe,
                                                  hstrip, not_not.1 hbase, hestrip, ?_⟩
                                                simp [wrapperMsvcOf, hmsvc]
                                            | succ j =>
                                                have := hidx j (by simpa using hj)
                                                simpa using this
                                    | jnull => simp [hmsvc] at h
                                    | jnum x => simp [hmsvc] at h
                                    | jstr x => simp [hmsvc] at h
                                    | jarr x => simp [hmsvc] at h
                                    | jobj x => simp [hmsvc] at h
                          | jnull => simp [hexe] at h
                          | jbool x => simp [hexe] at h
                          | jnum x => simp [hexe] at h
                          | jarr x => simp [hexe] at h
                          | jobj x => simp [hexe] at h
              | jnull => simp [hname] at h
              | jbool x => simp [hname] at h
              | jnum x => simp [hname] at h
              | jarr x => simp [hname] at h
              | jobj x => simp [hname] at h
      | jnull => simp only [normalizeWinexeItems] at h; exact Except.noConfusion h
      | jbool b => simp only [normalizeWinexeItems] at h; exact Except.noConfusion h
      | jnum x => simp only [normalizeWinexeItems] at h; exact Except.noConfusion h
      | jstr s => simp only [normalizeWinexeItems] at h; exact Except.noConfusion h
      | jarr x => simp only [normalizeWinexeItems] at h; exact Except.noConfusion h


/-- C8 (amended): every descriptor in a successful normalization has a
name that is non-blank, is its own pathlib basename, and contains no
path separator, plus a non-blank exe template, and `msvc_env` defaults
to false when the key is absent; moreover no input entry behind a
successful normalization fails the name check, so a bad name always
makes normalization fail.  However the name check is only "fails with
the name-invalid error exactly when" per entry in order (name before
exe before msvc_env), and a whitespace-only name — neither empty nor
carrying a directory component — also fails it (the
counterexample). -/
theorem c8_theorem (ctx : String) (raw : Option JVal) (ws : List Wrapper)
    (h : normalize_winexe_wrappers raw ctx = .ok ws) :
    (∀ w ∈ ws, pyStrip w.name ≠ "" ∧ pathName (parsePath w.name) = w.name ∧
        '/' ∉ w.name.data ∧ pyStrip w.exe ≠ "") ∧
    (∀ items, raw = some (.jarr items) →
        ws.length = items.length ∧
        (∀ item ∈ items, wrapperNameBad item = false) ∧
        ∀ j, j < ws.length →
          ∃ fields name exe,
            items[j]? = some (.jobj fields) ∧
            jlookup fields "name" = some (.jstr name) ∧
            jlookup fields "exe" = some (.jstr exe) ∧
            (jlookup fields "msvc_env" = none → ws[j]? = some ⟨name, exe, false⟩) ∧
            ws[j]? = some ⟨name, exe, wrapperMsvcOf fields⟩) := by
  have main : ∀ items, raw = some (.jarr items) →
      normalizeWinexeItems ctx 0 items = .ok ws := by
    intro items heq
    rw [heq] at h
    simpa [normalize_winexe_wrappers] using h
  have empty_case : raw = none ∨ raw = some .jnull → ws = [] := by
    intro hr
    rcases hr with hr | hr <;> rw [hr] at h <;>
      simpa [normalize_winexe_wrappers] using h.symm
  cases raw with
  | none =>
      have hws : ws = [] := empty_case (Or.inl rfl)
      subst hws
      exact ⟨by simp, fun items heq => by cases heq⟩
  | some v =>
      cases v with
      | jarr items =>
          have hok := main items rfl
          obtain ⟨hlen, hidx⟩ := normalizeItems_ok_spec ctx items 0 ws hok
          have hgood : ∀ j, j < ws.length →
              ∃ fields name exe,
                items[j]? = some (.jobj fields) ∧
                jlookup fields "name" = some (.jstr name) ∧
                jlookup fields "exe" = some (.jstr exe) ∧
                (jlookup fields "msvc_env" = none → ws[j]? = some ⟨name, exe, false⟩) ∧
                ws[j]? = some ⟨name, exe, wrapperMsvcOf fields⟩ := by
            intro j hj
            obtain ⟨fields, name, exe, hitem, hname, hexe, hstrip, hbase, hestrip, hw⟩ :=
              hidx j hj
            refine ⟨fields, name, exe, hitem, hname, hexe, ?_, hw⟩
            intro hnone
            rw [hw, wrapperMsvcOf, hnone]
          refine ⟨?_, ?_⟩
          · intro w hw
            obtain ⟨j, hj⟩ := List.mem_iff_getElem?.1 hw
            have hjlt : j < ws.length := by
              by_contra hge
              rw [List.getElem?_eq_none (by omega)] at hj
              cases hj
            obtain ⟨fields, name, exe, hitem, hname, hexe, hstrip, hbase, hestrip, hwj⟩ :=
              hidx j hjlt
            rw [hj] at hwj
            injection hwj with hwj
            subst hwj
            exact ⟨hstrip, hbase, pathName_eq_no_slash name hstrip hbase, hestrip⟩
          · intro items2 heq
            injection heq with heq
            injection heq with heq
            subst heq
            refine ⟨hlen, ?_, hgood⟩
            intro item hmem
            obtain ⟨j, hj⟩ := List.mem_iff_getElem?.1 hmem
            have hjlt : j < ws.length := by
              rw [hlen]
              by_contra hge
              rw [List.getElem?_eq_none (by omega)] at hj
              cases hj
            obtain ⟨fields, name, exe, hitem, hname, hexe, hstrip, hbase, hestrip, hwj⟩ :=
              hidx j hjlt
            rw [hj] at hitem
            injection hitem with hitem
            subst hitem
            rw [wrapperNameBad, hname]
            simp [hstrip, hbase]
      | jnull =>
          have hws : ws = [] := empty_case (Or.inr rfl)
          subst hws
          exact ⟨by simp, fun items heq => by injection heq with heq; cases heq⟩
      | jbool b => simp [normalize_winexe_wrappers] at h
      | jnum x => simp [normalize_winexe_wrappers] at h
      | jstr x => simp [normalize_winexe_wrappers] at h
      | jobj x => simp [normalize_winexe_wrappers] at h


/-- C8 counterexample: a whitespace-only name is neither empty nor
contains a directory component (it is its own pathlib basename), yet
normalization fails with the name-invalid error, refuting the claimed
"exactly when some entry's name is empty or not a bare filename". -/
theorem c8_counterexample :
    normalize_winexe_wrappers
        (some (.jarr [.jobj [("name", .jstr " "), ("exe", .jstr "x")]])) "project config"
      = .error (.died "project config winexe_wrappers[0] missing name") ∧
    (" " : String) ≠ "" ∧
    pathName (parsePath " ") = " " ∧
    '/' ∉ (" " : String).data := by
  refine ⟨by decide, by decide, by decide, by decide⟩

/-- C8 witness: the output guarantees at the concrete accepted wrapper
descriptor of a one-entry list. -/
theorem c8_witness :
    pyStrip "cl.exe" ≠ "" ∧ pathName (parsePath "cl.exe") = "cl.exe" ∧
    '/' ∉ ("cl.exe" : String).data ∧ pyStrip "x" ≠ "" :=
  ( c8_theorem "project config"
    (some (.jarr [.jobj [("name", .jstr "cl.exe"), ("exe", .jstr "x")]]))
    [⟨"cl.exe", "x", false⟩] (by decide)).1 ⟨"cl.exe", "x", false⟩ (by decide)


/-- The names a fold over a list appends after the given already-seen
names, in first-occurrence order — the specification vocabulary for
both `dedupe_preserve_order` and the wrapper-merge order list. -/
def newAfter (seen : List String) : List String → List String
  | [] => []
  | n :: ns => if n ∈ seen then newAfter seen ns else n :: newAfter (seen ++ [n]) ns

/-- The last occurrence of a name in a wrapper list. -/
def lastWith (n : String) (xs : List Wrapper) : Option Wrapper :=
  (xs.filter (fun w => w.name = n)).getLast?

theorem dedupe_foldl_aux (l : List String) :
    ∀ acc : List String,
      l.foldl (fun (st : List String × List String) item =>
          if item ∈ st.1 then st else (st.1 ++ [item], st.2 ++ [item])) (acc, acc)
        = (acc ++ newAfter acc l, acc ++ newAfter acc l) := by
  induction l with
  | nil => intro acc; simp [newAfter]
  | cons x l ih =>
      intro acc
      by_cases hx : x ∈ acc
      · simp only [List.foldl_cons, if_pos hx, newAfter, ih]
      · simp only [List.foldl_cons, if_neg hx, newAfter, ih (acc ++ [x])]
        simp [hx]

theorem dedupe_eq_newAfter (l : List String) :
    dedupe_preserve_order l = newAfter [] l := by
  rw [dedupe_preserve_order, dedupe_foldl_aux l []]
  simp

theorem newAfter_mem (l : List String) :
    ∀ seen x, x ∈ newAfter seen l ↔ x ∈ l ∧ x ∉ seen := by
  induction l with
  | nil => intro seen x; simp [newAfter]
  | cons n ns ih =>
      intro seen x
      by_cases hn : n ∈ seen
      · rw [newAfter, if_pos hn, ih]
        constructor
        · rintro ⟨hx, hs⟩
          exact ⟨List.mem_cons_of_mem _ hx, hs⟩
        · rintro ⟨hx, hs⟩
          rcases List.mem_cons.1 hx with rfl | hx2
          · exact absurd hn hs
          · exact ⟨hx2, hs⟩
      · rw [newAfter, if_neg hn]
        constructor
        · intro hx
          rcases List.mem_cons.1 hx with rfl | hx2
          · exact ⟨List.mem_cons_self _ _, hn⟩
          · have := (ih (seen ++ [n]) x).1 hx2
            refine ⟨List.mem_cons_of_mem _ this.1, fun hs => this.2 (by simp [hs])⟩
        · rintro ⟨hx, hs⟩
          rcases List.mem_cons.1 hx with rfl | hx2
          · exact List.mem_cons_self _ _
          · by_cases hxn : x = n
            · subst hxn; exact List.mem_cons_self _ _
            · exact List.mem_cons_of_mem _
                ((ih (seen ++ [n]) x).2 ⟨hx2, by simp [hs, hxn]⟩)

theorem newAfter_nodup (l : List String) : ∀ seen, (newAfter seen l).Nodup := by
  induction l with
  | nil => intro seen; simp [newAfter]
  | cons n ns ih =>
      intro seen
      by_cases hn : n ∈ seen
      · rw [newAfter, if_pos hn]; exact ih seen
      · rw [newAfter, if_neg hn]
        refine List.nodup_cons.2 ⟨?_, ih (seen ++ [n])⟩
        intro hmem
        have := (newAfter_mem ns (seen ++ [n]) n).1 hmem
        exact this.2 (by simp)

theorem lookup_updateAssoc {β : Type} (l : List (String × β)) (k : String) (v : β)
    (n : String) :
    lookupAssoc (updateAssoc l k v) n = if n = k then some v else lookupAssoc l n := by
  induction l with
  | nil =>
      by_cases hn : n = k
      · subst hn; simp [updateAssoc, lookupAssoc]
      · have hn2 : ¬k = n := fun h => hn h.symm
        simp [updateAssoc, lookupAssoc, hn, hn2]
  | cons kv rest ih =>
      obtain ⟨k2, v2⟩ := kv
      by_cases hk : k2 = k
      · subst hk
        by_cases hn : n = k2
        · subst hn; simp [updateAssoc, lookupAssoc]
        · have hn2 : ¬k2 = n := fun h => hn h.symm
          simp [updateAssoc, lookupAssoc, hn, hn2]
      · by_cases hn : n = k2
        · subst hn
          simp [updateAssoc, lookupAssoc, hk]
        · have hn2 : ¬k2 = n := fun h => hn h.symm
          by_cases hnk : n = k
          · subst hnk
            simp [updateAssoc, lookupAssoc, hk, hn, hn2, ih]
          · simp [updateAssoc, lookupAssoc, hk, hn, hn2, hnk, ih]

theorem getLast?_append_cases {α : Type} (l1 l2 : List α) :
    (l1 ++ l2).getLast? = match l2.getLast? with
      | some x => some x
      | none => l1.getLast? := by
  cases hl : l2 with
  | nil => simp
  | cons a t =>
      rw [List.getLast?_append_cons]
      cases hg : (a :: t).getLast? with
      | none => simp at hg
      | some x => rw [← hg]; rfl

theorem lastWith_cons (n : String) (w : Wrapper) (xs : List Wrapper) :
    lastWith n (w :: xs) = match lastWith n xs with
      | some v => some v
      | none => if w.name = n then some w else none := by
  rw [lastWith, lastWith]
  by_cases hw : w.name = n
  · rw [List.filter_cons, if_pos (by simp [hw])]
    have : (w :: List.filter (fun x => decide (x.name = n)) xs) =
        [w] ++ List.filter (fun x => decide (x.name = n)) xs := rfl
    rw [this, getLast?_append_cases]
    cases (List.filter (fun x => decide (x.name = n)) xs).getLast? <;> simp [hw]
  · rw [List.filter_cons, if_neg (by simp [hw])]
    cases (List.filter (fun x => decide (x.name = n)) xs).getLast? <;> simp [hw]

theorem lastWith_name (n : String) (xs : List Wrapper) (w : Wrapper)
    (h : lastWith n xs = some w) : w.name = n := by
  have hmem : w ∈ xs.filter (fun x => x.name = n) := List.mem_of_mem_getLast? h
  have := (List.mem_filter.1 hmem).2
  simpa using this


theorem mergeFold_spec (xs : List Wrapper) :
    ∀ (merged : List (String × Wrapper)) (order : List String),
      (∀ n : String, (lookupAssoc merged n).isSome = true ↔ n ∈ order) →
      ((xs.foldl (fun st w =>
          let order := if (lookupAssoc st.1 w.name).isSome then st.2 else st.2 ++ [w.name]
          (updateAssoc st.1 w.name w, order)) (merged, order)).2
        = order ++ newAfter order (xs.map (fun w => w.name))) ∧
      (∀ n : String, lookupAssoc (xs.foldl (fun st w =>
          let order := if (lookupAssoc st.1 w.name).isSome then st.2 else st.2 ++ [w.name]
          (updateAssoc st.1 w.name w, order)) (merged, order)).1 n =
        match lastWith n xs with
        | some w => some w
        | none => lookupAssoc merged n) ∧
      (∀ n : String, (lookupAssoc (xs.foldl (fun st w =>
          let order := if (lookupAssoc st.1 w.name).isSome then st.2 else st.2 ++ [w.name]
          (updateAssoc st.1 w.name w, order)) (merged, order)).1 n).isSome = true ↔
        n ∈ (xs.foldl (fun st w =>
          let order := if (lookupAssoc st.1 w.name).isSome then st.2 else st.2 ++ [w.name]
          (updateAssoc st.1 w.name w, order)) (merged, order)).2) := by
  induction xs with
  | nil =>
      intro merged order hinv
      refine ⟨by simp [newAfter], ?_, ?_⟩
      · intro n; simp [lastWith, List.filter_nil]
      · intro n; simpa using hinv n
  | cons w xs ih =>
      intro merged order hinv
      have hstep :
          (List.foldl (fun st x =>
              let order := if (lookupAssoc st.1 x.name).isSome then st.2 else st.2 ++ [x.name]
              (updateAssoc st.1 x.name x, order)) (merged, order) (w :: xs))
            = List.foldl (fun st x =>
              let order := if (lookupAssoc st.1 x.name).isSome then st.2 else st.2 ++ [x.name]
              (updateAssoc st.1 x.name x, order))
              (updateAssoc merged w.name w,
               if (lookupAssoc merged w.name).isSome then order else order ++ [w.name]) xs := rfl
      have hinv2 : ∀ n : String,
          (lookupAssoc (updateAssoc merged w.name w) n).isSome = true ↔
            n ∈ (if (lookupAssoc merged w.name).isSome then order else order ++ [w.name]) := by
        intro n
        rw [lookup_updateAssoc]
        by_cases hn : n = w.name
        · rw [if_pos hn]
          by_cases hs : (lookupAssoc merged w.name).isSome = true
          · rw [if_pos hs]
            simp [hn, (hinv w.name).1 hs]
          · rw [if_neg hs]
            simp [hn]
        · rw [if_neg hn]
          by_cases hs : (lookupAssoc merged w.name).isSome = true
          · rw [if_pos hs]
            exact hinv n
          · rw [if_neg hs]
            rw [hinv n]
            simp [List.mem_append, hn]
      obtain ⟨h1, h2, h3⟩ := ih (updateAssoc merged w.name w)
        (if (lookupAssoc merged w.name).isSome then order else order ++ [w.name]) hinv2
      refine ⟨?_, ?_, ?_⟩
      · rw [hstep, h1]
        by_cases hs : (lookupAssoc merged w.name).isSome = true
        · have hmem : w.name ∈ order := (hinv w.name).1 hs
          simp only [hs, if_true, List.map_cons, newAfter, if_pos hmem]
        · have hmem : w.name ∉ order := fun hm => by
            rw [← hinv w.name] at hm
            exact hs hm
          simp only [hs, List.map_cons, newAfter, if_neg hmem]
          simp
      · intro n
        rw [hstep, h2 n, lookup_updateAssoc, lastWith_cons]
        cases hl : lastWith n xs with
        | some v => rfl
        | none =>
            by_cases hn : n = w.name
            · subst hn; simp
            · have hn2 : ¬w.name = n := fun h => hn h.symm
              simp [hn, hn2]
      · intro n
        rw [hstep]
        exact h3 n

theorem filterMap_names {f : String → Option Wrapper} (O : List String)
    (hf : ∀ n ∈ O, ∃ w, f n = some w ∧ w.name = n) :
    (O.filterMap f).map (fun w => w.name) = O := by
  induction O with
  | nil => simp
  | cons n ns ih =>
      obtain ⟨w, hw, hwn⟩ := hf n (List.mem_cons_self _ _)
      rw [List.filterMap_cons, hw]
      simp only [List.map_cons, hwn]
      rw [ih (fun x hx => hf x (List.mem_cons_of_mem _ hx))]

/-- C10: the winexe-wrapper merge keeps pairwise-distinct names, each
at its first occurrence in the project-then-build concatenation (its
name list is exactly the order-preserving deduplication of the
concatenation's names), and the entry kept for a name is the last
occurrence of that name in the concatenation. -/
theorem c10_theorem (pw bw : List Wrapper) :
    ((merge_winexe_wrappers pw bw).map (fun w => w.name)
        = dedupe_preserve_order ((pw ++ bw).map (fun w => w.name))) ∧
    ((merge_winexe_wrappers pw bw).map (fun w => w.name)).Nodup ∧
    (∀ w ∈ merge_winexe_wrappers pw bw,
        ((pw ++ bw).filter (fun x => x.name = w.name)).getLast? = some w) ∧
    (∀ n : String, n ∈ (merge_winexe_wrappers pw bw).map (fun w => w.name) ↔
        n ∈ (pw ++ bw).map (fun w => w.name)) := by
  obtain ⟨h1, h2, h3⟩ := mergeFold_spec (pw ++ bw) [] []
    (by intro n; simp [lookupAssoc])
  have hlast : ∀ n : String,
      lookupAssoc ((pw ++ bw).foldl (fun st w =>
        let order := if (lookupAssoc st.1 w.name).isSome then st.2 else st.2 ++ [w.name]
        (updateAssoc st.1 w.name w, order)) ([], [])).1 n =
        match lastWith n (pw ++ bw) with
        | some w => some w
        | none => none := by
    intro n
    rw [h2 n]
    cases lastWith n (pw ++ bw) <;> simp [lookupAssoc]
  have hORD := h1
  simp only [List.nil_append] at hORD
  have hres : merge_winexe_wrappers pw bw =
      ((pw ++ bw).foldl (fun st w =>
        let order := if (lookupAssoc st.1 w.name).isSome then st.2 else st.2 ++ [w.name]
        (updateAssoc st.1 w.name w, order)) ([], [])).2.filterMap
        (fun n => lookupAssoc ((pw ++ bw).foldl (fun st w =>
          let order := if (lookupAssoc st.1 w.name).isSome then st.2 else st.2 ++ [w.name]
          (updateAssoc st.1 w.name w, order)) ([], [])).1 n) := rfl
  have hfOK : ∀ n ∈ ((pw ++ bw).foldl (fun st w =>
      let order := if (lookupAssoc st.1 w.name).isSome then st.2 else st.2 ++ [w.name]
      (updateAssoc st.1 w.name w, order)) ([], [])).2,
      ∃ v, lookupAssoc ((pw ++ bw).foldl (fun st w =>
        let order := if (lookupAssoc st.1 w.name).isSome then st.2 else st.2 ++ [w.name]
        (updateAssoc st.1 w.name w, order)) ([], [])).1 n = some v ∧ v.name = n := by
    intro n hn
    have hsome := (h3 n).2 hn
    cases hv : lookupAssoc ((pw ++ bw).foldl (fun st w =>
        let order := if (lookupAssoc st.1 w.name).isSome then st.2 else st.2 ++ [w.name]
        (updateAssoc st.1 w.name w, order)) ([], [])).1 n with
    | none => rw [hv] at hsome; simp at hsome
    | some v =>
        refine ⟨v, rfl, ?_⟩
        have := hlast n
        rw [hv] at this
        cases hl : lastWith n (pw ++ bw) with
        | none => rw [hl] at this; simp at this
        | some u =>
            rw [hl] at this
            simp only at this
            injection this with this
            subst this
            exact lastWith_name n (pw ++ bw) v hl
  have hnames : (merge_winexe_wrappers pw bw).map (fun w => w.name) =
      ((pw ++ bw).foldl (fun st w =>
        let order := if (lookupAssoc st.1 w.name).isSome then st.2 else st.2 ++ [w.name]
        (updateAssoc st.1 w.name w, order)) ([], [])).2 := by
    rw [hres]
    exact filterMap_names _ hfOK
  refine ⟨?_, ?_, ?_, ?_⟩
  · rw [hnames, hORD, dedupe_eq_newAfter]
  · rw [hnames, hORD]
    exact newAfter_nodup _ []
  · intro w hw
    rw [hres] at hw
    obtain ⟨n, hn, hv⟩ := List.mem_filterMap.1 hw
    have := hlast n
    rw [hv] at this
    cases hl : lastWith n (pw ++ bw) with
    | none => rw [hl] at this; simp at this
    | some u =>
        rw [hl] at this
        simp only at this
        injection this with this
        subst this
        have hname := lastWith_name n (pw ++ bw) w hl
        rw [lastWith] at hl
        rw [← hname] at hl
        exact hl
  · intro n
    rw [hnames, hORD, newAfter_mem]
    simp


/-- C10 witness: the characterization at a concrete pair of lists where
the build side overrides a project-side name. -/
theorem c10_witness :
    (([⟨"a", "p1", false⟩, ⟨"b", "p2", false⟩] ++ [⟨"a", "b1", true⟩] :
        List Wrapper).filter (fun x => x.name = "a")).getLast? = some ⟨"a", "b1", true⟩ := by
  have := ( c10_theorem [⟨"a", "p1", false⟩, ⟨"b", "p2", false⟩] [⟨"a", "b1", true⟩]).2.2.1
    ⟨"a", "b1", true⟩ (by decide)
  simpa using this


theorem pyEqPairs_forall (kvs other : List (String × JVal))
    (h : pyEqPairs kvs other = true) :
    ∀ p ∈ kvs, ∃ v2, jlookup other p.1 = some v2 ∧ pyEq p.2 v2 = true := by
  induction kvs with
  | nil => intro p hp; simp at hp
  | cons q rest ih =>
      obtain ⟨k, v⟩ := q
      rw [pyEqPairs] at h
      rw [Bool.and_eq_true] at h
      intro p hp
      rcases List.mem_cons.1 hp with rfl | hp2
      · cases hlk : jlookup other k with
        | none => rw [hlk] at h; simp at h
        | some v2 =>
            rw [hlk] at h
            exact ⟨v2, rfl, h.1⟩
      · exact ih h.2 p hp2

theorem jlookup_append_some (l1 l2 : List (String × JVal)) (k : String) (v : JVal)
    (h : jlookup l1 k = some v) : jlookup (l1 ++ l2) k = some v := by
  induction l1 with
  | nil => simp [jlookup, lookupAssoc] at h
  | cons q rest ih =>
      obtain ⟨k2, v2⟩ := q
      by_cases hk : k2 = k
      · rw [jlookup, lookupAssoc, if_pos hk] at h
        simp [jlookup, lookupAssoc, hk, h]
      · rw [jlookup, lookupAssoc, if_neg hk] at h
        simp only [jlookup, lookupAssoc, List.cons_append, if_neg hk]
        exact ih h

theorem jlookup_append_none (l1 l2 : List (String × JVal)) (k : String)
    (h : jlookup l1 k = none) : jlookup (l1 ++ l2) k = jlookup l2 k := by
  induction l1 with
  | nil => rfl
  | cons q rest ih =>
      obtain ⟨k2, v2⟩ := q
      by_cases hk : k2 = k
      · rw [jlookup, lookupAssoc, if_pos hk] at h
        exact Option.noConfusion h
      · rw [jlookup, lookupAssoc, if_neg hk] at h
        simp only [jlookup, lookupAssoc, List.cons_append, if_neg hk]
        exact ih h

theorem jlookup_split (l : List (String × JVal)) (k : String) (v : JVal)
    (h : jlookup l k = some v) :
    ∃ pre post, l = pre ++ (k, v) :: post ∧ ∀ q ∈ pre, q.1 ≠ k := by
  induction l with
  | nil => simp [jlookup, lookupAssoc] at h
  | cons q rest ih =>
      obtain ⟨k2, v2⟩ := q
      by_cases hk : k2 = k
      · subst hk
        rw [jlookup, lookupAssoc, if_pos rfl] at h
        injection h with h
        subst h
        exact ⟨[], rest, rfl, by simp⟩
      · rw [jlookup, lookupAssoc, if_neg hk] at h
        obtain ⟨pre, post, heq, hpre⟩ := ih h
        refine ⟨(k2, v2) :: pre, post, by rw [heq]; rfl, ?_⟩
        intro q hq
        rcases List.mem_cons.1 hq with rfl | hq2
        · exact hk
        · exact hpre q hq2

theorem jNoDupPairs_forall (kvs : List (String × JVal)) (h : jNoDupPairs kvs = true) :
    ∀ p ∈ kvs, jNoDup p.2 = true := by
  induction kvs with
  | nil => intro p hp; simp at hp
  | cons q rest ih =>
      obtain ⟨k, v⟩ := q
      rw [jNoDupPairs, Bool.and_eq_true] at h
      intro p hp
      rcases List.mem_cons.1 hp with rfl | hp2
      · exact h.1
      · exact ih h.2 p hp2

theorem normPairs_keys (kvs : List (String × JVal)) :
    (normPairs kvs).map Prod.fst = kvs.map Prod.fst := by
  induction kvs with
  | nil => rfl
  | cons q rest ih =>
      obtain ⟨k, v⟩ := q
      simp [normPairs, ih]

theorem normPairs_length (kvs : List (String × JVal)) :
    (normPairs kvs).length = kvs.length := by
  induction kvs with
  | nil => rfl
  | cons q rest ih =>
      obtain ⟨k, v⟩ := q
      simp [normPairs, ih]

theorem normPairs_lookup (kvs : List (String × JVal)) (k : String) :
    jlookup (normPairs kvs) k = (jlookup kvs k).map normJ := by
  induction kvs with
  | nil => simp [jlookup, lookupAssoc, normPairs]
  | cons q rest ih =>
      obtain ⟨k2, v2⟩ := q
      by_cases hk : k2 = k
      · simp [normPairs, jlookup, lookupAssoc, hk]
      · simp only [normPairs, jlookup, lookupAssoc, if_neg hk]
        exact ih

theorem assoc_perm (l1 : List (String × JVal)) :
    ∀ l2 : List (String × JVal),
      (l1.map Prod.fst).Nodup → (l2.map Prod.fst).Nodup →
      (∀ p ∈ l1, jlookup l2 p.1 = some p.2) →
      l1.length = l2.length →
      l1.Perm l2 := by
  induction l1 with
  | nil =>
      intro l2 _ _ _ hlen
      cases l2 with
      | nil => exact List.Perm.refl []
      | cons q rest => simp at hlen
  | cons p rest ih =>
      intro l2 hn1 hn2 hlook hlen
      obtain ⟨k, v⟩ := p
      have hkv : jlookup l2 k = some v := hlook (k, v) (List.mem_cons_self _ _)
      obtain ⟨pre, post, heq, hpre⟩ := jlookup_split l2 k v hkv
      subst heq
      have hmid : (pre ++ (k, v) :: post).Perm ((k, v) :: (pre ++ post)) := List.perm_middle
      refine List.Perm.trans (List.Perm.cons (k, v) ?_) hmid.symm
      have hn1r : (rest.map Prod.fst).Nodup := by
        rw [List.map_cons, List.nodup_cons] at hn1
        exact hn1.2
      have hknotin : k ∉ rest.map Prod.fst := by
        rw [List.map_cons, List.nodup_cons] at hn1
        exact hn1.1
      have hsub : List.Sublist (pre ++ post) (pre ++ (k, v) :: post) :=
        List.Sublist.append (List.Sublist.refl _) (List.sublist_cons_self _ _)
      have hn2r : ((pre ++ post).map Prod.fst).Nodup :=
        List.Nodup.sublist (List.Sublist.map Prod.fst hsub) hn2
      refine ih (pre ++ post) hn1r hn2r ?_ ?_
      · intro q hq
        have hqk : q.1 ≠ k := by
          intro hqk
          apply hknotin
          rw [← hqk]
          exact List.mem_map_of_mem Prod.fst hq
        have hlq := hlook q (List.mem_cons_of_mem _ hq)
        cases hplo : jlookup pre q.1 with
        | some u =>
            have h1 := jlookup_append_some pre ((k, v) :: post) q.1 u hplo
            rw [h1] at hlq
            injection hlq with hlq
            rw [← hlq]
            exact jlookup_append_some pre post q.1 u hplo
        | none =>
            have h1 := jlookup_append_none pre ((k, v) :: post) q.1 hplo
            rw [h1, jlookup, lookupAssoc, if_neg (fun h => hqk h.symm)] at hlq
            rw [jlookup_append_none pre post q.1 hplo]
            exact hlq
      · simp only [List.length_cons, List.length_append] at hlen ⊢
        omega


theorem jlookup_mem (l : List (String × JVal)) (k : String) (v : JVal)
    (h : jlookup l k = some v) : (k, v) ∈ l := by
  induction l with
  | nil => simp [jlookup, lookupAssoc] at h
  | cons q rest ih =>
      obtain ⟨k2, v2⟩ := q
      by_cases hk : k2 = k
      · subst hk
        rw [jlookup, lookupAssoc, if_pos rfl] at h
        injection h with h
        subst h
        exact List.mem_cons_self _ _
      · rw [jlookup, lookupAssoc, if_neg hk] at h
        exact List.mem_cons_of_mem _ (ih h)

theorem normPairs_eq_map (kvs : List (String × JVal)) :
    normPairs kvs = kvs.map (fun q => (q.1, normJ q.2)) := by
  induction kvs with
  | nil => rfl
  | cons q rest ih =>
      obtain ⟨k, v⟩ := q
      simp [normPairs, ih]

instance : IsTotal (String × JVal) (fun a b => a.1 ≤ b.1) :=
  ⟨fun a b => le_total a.1 b.1⟩

instance : IsTrans (String × JVal) (fun a b => a.1 ≤ b.1) :=
  ⟨fun _ _ _ hab hbc => le_trans hab hbc⟩

instance : IsAntisymm (String × JVal) (fun a b => a.1 < b.1) :=
  ⟨fun _ _ h1 h2 => (lt_asymm h1 h2).elim⟩

theorem sortPairs_eq_of_perm (l1 l2 : List (String × JVal))
    (hp : l1.Perm l2) (hn : (l1.map Prod.fst).Nodup) :
    sortPairs l1 = sortPairs l2 := by
  have hp1 : (sortPairs l1).Perm l1 := List.perm_insertionSort _ l1
  have hp2 : (sortPairs l2).Perm l2 := List.perm_insertionSort _ l2
  have hps : (sortPairs l1).Perm (sortPairs l2) := hp1.trans (hp.trans hp2.symm)
  have hs1 : (sortPairs l1).Sorted (fun a b : String × JVal => a.1 ≤ b.1) :=
    List.sorted_insertionSort _ l1
  have hs2 : (sortPairs l2).Sorted (fun a b : String × JVal => a.1 ≤ b.1) :=
    List.sorted_insertionSort _ l2
  have hn2 : (l2.map Prod.fst).Nodup := ((hp.map Prod.fst).nodup_iff).1 hn
  have hne1 : (sortPairs l1).Pairwise (fun a b : String × JVal => a.1 ≠ b.1) := by
    have hmn : ((sortPairs l1).map Prod.fst).Nodup := ((hp1.map Prod.fst).nodup_iff).2 hn
    exact List.pairwise_map.mp hmn
  have hne2 : (sortPairs l2).Pairwise (fun a b : String × JVal => a.1 ≠ b.1) := by
    have hmn : ((sortPairs l2).map Prod.fst).Nodup := ((hp2.map Prod.fst).nodup_iff).2 hn2
    exact List.pairwise_map.mp hmn
  have hlt1 : (sortPairs l1).Pairwise (fun a b : String × JVal => a.1 < b.1) :=
    (hs1.and hne1).imp (fun h => lt_of_le_of_ne h.1 h.2)
  have hlt2 : (sortPairs l2).Pairwise (fun a b : String × JVal => a.1 < b.1) :=
    (hs2.and hne2).imp (fun h => lt_of_le_of_ne h.1 h.2)
  exact List.eq_of_perm_of_sorted hps hlt1 hlt2

theorem pyEq_normJ : ∀ a : JVal, ∀ b : JVal,
    jNoDup a = true → jNoDup b = true → pyEq a b = true → normJ a = normJ b := by
  intro a
  induction a using JVal.rec
    (motive_2 := fun xs => ∀ ys, jNoDupList xs = true → jNoDupList ys = true →
      pyEqList xs ys = true → normItems xs = normItems ys)
    (motive_3 := fun kvs => ∀ p ∈ kvs, ∀ b, jNoDup p.2 = true → jNoDup b = true →
      pyEq p.2 b = true → normJ p.2 = normJ b)
    (motive_4 := fun p => ∀ b, jNoDup p.2 = true → jNoDup b = true →
      pyEq p.2 b = true → normJ p.2 = normJ b)
  · intro b _ _ h; cases b <;> simp [pyEq] at h <;> rfl
  · rename_i a; intro b _ _ h; cases b <;> simp [pyEq] at h <;> simp [normJ, h]
  · rename_i a; intro b _ _ h; cases b <;> simp [pyEq] at h <;> simp [normJ, h]
  · rename_i a; intro b _ _ h; cases b <;> simp [pyEq] at h <;> simp [normJ, h]
  · rename_i xs ih
    intro b h1 h2 h
    cases b with
    | jarr ys =>
        rw [pyEq] at h
        rw [jNoDup] at h1 h2
        rw [normJ, normJ]
        rw [ih ys h1 h2 h]
    | jnull => simp [pyEq] at h
    | jbool b => simp [pyEq] at h
    | jnum n => simp [pyEq] at h
    | jstr s => simp [pyEq] at h
    | jobj kvs => simp [pyEq] at h
  · rename_i kvs ih
    intro b h1 h2 h
    cases b with
    | jobj ys =>
        rw [pyEq, Bool.and_eq_true] at h
        obtain ⟨hlenb, hpe⟩ := h
        have hlen : kvs.length = ys.length := beq_iff_eq.mp hlenb
        rw [jNoDup, Bool.and_eq_true, decide_eq_true_iff] at h1 h2
        obtain ⟨hk1, hv1⟩ := h1
        obtain ⟨hk2, hv2⟩ := h2
        rw [normJ, normJ]
        congr 1
        have hperm : (normPairs kvs).Perm (normPairs ys) := by
          refine assoc_perm (normPairs kvs) (normPairs ys) ?_ ?_ ?_ ?_
          · rw [normPairs_keys]; exact hk1
          · rw [normPairs_keys]; exact hk2
          · intro p hp
            rw [normPairs_eq_map] at hp
            obtain ⟨q, hq, hpq⟩ := List.mem_map.1 hp
            obtain ⟨v2, hv2l, hpeq⟩ := pyEqPairs_forall kvs ys hpe q hq
            have hmem2 : (q.1, v2) ∈ ys := jlookup_mem ys q.1 v2 hv2l
            have hnd1 : jNoDup q.2 = true := jNoDupPairs_forall kvs hv1 q hq
            have hnd2 : jNoDup v2 = true := jNoDupPairs_forall ys hv2 (q.1, v2) hmem2
            have heqn : normJ q.2 = normJ v2 := ih q hq v2 hnd1 hnd2 hpeq
            rw [← hpq]
            show jlookup (normPairs ys) q.1 = some (normJ q.2)
            rw [normPairs_lookup, hv2l]
            show some (normJ v2) = some (normJ q.2)
            rw [heqn]
          · rw [normPairs_length, normPairs_length]; exact hlen
        refine sortPairs_eq_of_perm _ _ hperm ?_
        rw [normPairs_keys]; exact hk1
    | jnull => simp [pyEq] at h
    | jbool b => simp [pyEq] at h
    | jnum n => simp [pyEq] at h
    | jstr s => simp [pyEq] at h
    | jarr xs => simp [pyEq] at h
  · rename_i ys hnd1 hnd2 hpe
    cases ys with
    | nil => rfl
    | cons y ys2 => simp [pyEqList] at hpe
  · rename_i x xs ihx ihxs ys h1 h2 h
    cases ys with
    | nil => simp [pyEqList] at h
    | cons y ys2 =>
        rw [pyEqList, Bool.and_eq_true] at h
        rw [jNoDupList, Bool.and_eq_true] at h1 h2
        rw [normItems, normItems]
        rw [ihx y h1.1 h2.1 h.1, ihxs ys2 h1.2 h2.2 h.2]
  · intros
    rename_i p hp b hnd1 hnd2 hpe
    exact absurd hp (List.not_mem_nil p)
  · intros
    rename_i p ps ihp ihps q hq b hnd1 hnd2 hpe
    rcases List.mem_cons.1 hq with rfl | hq2
    · exact ihp b hnd1 hnd2 hpe
    · exact ihps q hq2 b hnd1 hnd2 hpe
  · intros
    rename_i k v ihv b hnd1 hnd2 hpe
    exact ihv b hnd1 hnd2 hpe

/-- Serialization determinism: duplicate-free JSON trees that are equal
as Python values render to the same `json.dumps` output. -/
theorem dumps_eq_of_pyEq (a b : JVal) (h1 : jNoDup a = true) (h2 : jNoDup b = true)
    (h : pyEq a b = true) : dumps a = dumps b := by
  rw [dumps, dumps, pyEq_normJ a b h1 h2 h]

/-- C9: `write_config` refuses to overwrite an existing target unless
forced, dying with the config-already-exists message and producing no
new content store (so the existing content is untouched); in every
other case it stores exactly the serialized data plus a trailing
newline; and the serialization is deterministic: two duplicate-free
data maps that are equal as Python values (key order notwithstanding)
produce byte-identical file content, because `sort_keys=True` orders
every object by key. -/
theorem c9_theorem :
    (∀ (fs : FS) (path : String) (data : JVal),
      (lookupAssoc fs path).isSome = true →
      write_config fs path data false = .error (.died (configExistsMsg path))) ∧
    (∀ (fs : FS) (path : String) (data : JVal) (force : Bool),
      (lookupAssoc fs path).isSome = false ∨ force = true →
      write_config fs path data force = .ok (updateAssoc fs path (dumps data ++ "\n"))) ∧
    (∀ d1 d2 : JVal, jNoDup d1 = true → jNoDup d2 = true → pyEq d1 d2 = true →
      dumps d1 = dumps d2) := by
  refine ⟨?_, ?_, ?_⟩
  · intro fs path data h
    rw [write_config, h]
    rfl
  · intro fs path data force h
    rcases h with h | h
    · rw [write_config, h]
      rfl
    · rw [write_config, h]
      simp
  · intro d1 d2 h1 h2 h
    rw [dumps, dumps, pyEq_normJ d1 d2 h1 h2 h]

/-- Concrete instantiation of the C9 theorem: a store holding path "p"
rejects an unforced write; an empty store accepts it; and the two
orderings of the same two-key object serialize identically. -/
theorem c9_witness :
    write_config [("p", "x")] "p" (.jobj [("b", .jnum 2), ("a", .jnum 1)]) false
      = .error (.died (configExistsMsg "p")) ∧
    write_config [] "q" (.jobj [("b", .jnum 2), ("a", .jnum 1)]) false
      = .ok (updateAssoc [] "q" (dumps (.jobj [("b", .jnum 2), ("a", .jnum 1)]) ++ "\n")) ∧
    dumps (.jobj [("b", .jnum 2), ("a", .jnum 1)])
      = dumps (.jobj [("a", .jnum 1), ("b", .jnum 2)]) :=
  ⟨c9_theorem.1 [("p", "x")] "p" (.jobj [("b", .jnum 2), ("a", .jnum 1)]) (by decide),
   c9_theorem.2.1 [] "q" (.jobj [("b", .jnum 2), ("a", .jnum 1)]) false (Or.inl (by decide)),
   c9_theorem.2.2 (.jobj [("b", .jnum 2), ("a", .jnum 1)]) (.jobj [("a", .jnum 1), ("b", .jnum 2)])
     (by decide) (by decide) (by decide)⟩

theorem resolve_vcpkg_missing (vp vb : VcpkgCfg) (root : PPath)
    (hen : vb.enabled.getD (vp.enabled.getD false) = true)
    (hmiss : strTruthy vb.host_root = none ∨ strTruthy vb.host_binary_cache = none) :
    resolve_vcpkg vp vb root =
      .error (.died "vcpkg enabled but host_root or host_binary_cache is missing in build config") := by
  rw [resolve_vcpkg]
  rcases hmiss with h | h
  · cases hc : strTruthy vb.host_binary_cache <;> simp [hen, h, hc]
  · cases hr : strTruthy vb.host_root <;> simp [hen, h, hr]

theorem resolve_vcpkg_ok_spec (vp vb : VcpkgCfg) (root : PPath) (out : VcpkgOut)
    (hr hc : String)
    (h1 : strTruthy vb.host_root = some hr)
    (h2 : strTruthy vb.host_binary_cache = some hc)
    (hvc : resolve_vcpkg vp vb root = .ok out)
    (hen : out.enabled = true) :
    out.host_root = some hr ∧ out.host_binary_cache = some hc ∧
    (∃ croot, to_container_path (parsePath hr) root DEFAULT_CONTAINER_ROOT = .ok croot ∧
      out.container_root = some croot) ∧
    (∃ ccache, to_container_path (parsePath hc) root DEFAULT_CONTAINER_ROOT = .ok ccache ∧
      out.container_binary_cache = some ccache) := by
  rw [resolve_vcpkg] at hvc
  cases he : vb.enabled.getD (vp.enabled.getD false) with
  | false =>
      simp only [he, if_false] at hvc
      simp only [bind, Except.bind, pure, Except.pure] at hvc
      injection hvc with hvc
      rw [← hvc] at hen
      simp at hen
  | true =>
      simp only [he, if_true] at hvc
      simp only [h1, h2] at hvc
      simp only [bind, Except.bind, pure, Except.pure] at hvc
      cases hcr : to_container_path (parsePath hr) root DEFAULT_CONTAINER_ROOT with
      | error e => rw [hcr] at hvc; exact Except.noConfusion hvc
      | ok croot =>
          rw [hcr] at hvc
          cases hcc : to_container_path (parsePath hc) root DEFAULT_CONTAINER_ROOT with
          | error e => rw [hcc] at hvc; exact Except.noConfusion hvc
          | ok ccache =>
              rw [hcc] at hvc
              injection hvc with hvc
              rw [← hvc]
              exact ⟨rfl, rfl, ⟨croot, rfl, rfl⟩, ⟨ccache, rfl, rfl⟩⟩

theorem resolve_effective_vcpkg (pc : ProjectCfg) (bc : BuildCfg) (root p : PPath)
    (eff : Effective) (h : resolve_effective_config pc bc root p = .ok eff) :
    ∃ out ox,
      resolve_vcpkg ((select_profile pc (match strTruthy bc.profile with
          | some q => some q
          | none => pc.default_profile)).vcpkg.getD {}) (bc.vcpkg.getD {}) root = .ok out ∧
      eff.vcpkg = { out with overlay_triplets := ox } := by
  rw [resolve_effective_config] at h
  simp only [bind, Except.bind, pure, Except.pure] at h
  split at h
  · exact Except.noConfusion h
  · split at h
    · exact Except.noConfusion h
    · split at h
      · exact Except.noConfusion h
      · split at h
        · exact Except.noConfusion h
        · rename_i out hvcok
          split at h
          · exact Except.noConfusion h
          · split at h
            · exact Except.noConfusion h
            · split at h
              · exact Except.noConfusion h
              · split at h
                · exact Except.noConfusion h
                · split at h
                  · exact Except.noConfusion h
                  · split at h
                    · exact Except.noConfusion h
                    · split at h
                      · exact Except.noConfusion h
                      · split at h
                        · exact Except.noConfusion h
                        · split at h
                          · exact Except.noConfusion h
                          · rename_i ox hox
                            injection h with h
                            exact ⟨out, ox, hvcok, by rw [← h]⟩

/-- C7: when the resolved package-manager block is enabled, a build
config whose `host_root` or `host_binary_cache` is missing (or empty,
Python truthiness) makes the vcpkg block die with the
missing-host-paths message — and `resolve_effective_config` then never
succeeds, failing with exactly that message once the earlier fallible
steps (profile validation and wrapper normalization) pass; when both
host paths are present and resolution succeeds, the effective
configuration carries them verbatim and their container-side
equivalents are the `to_container_path` images of the host paths under
the root-to-container mapping. -/
theorem c7_theorem :
    (∀ (vp vb : VcpkgCfg) (root : PPath),
      vb.enabled.getD (vp.enabled.getD false) = true →
      strTruthy vb.host_root = none ∨ strTruthy vb.host_binary_cache = none →
      resolve_vcpkg vp vb root =
        .error (.died "vcpkg enabled but host_root or host_binary_cache is missing in build config")) ∧
    (∀ (pc : ProjectCfg) (bc : BuildCfg) (root p : PPath) (pcfg : ProjectCfg),
      pcfg = select_profile pc (match strTruthy bc.profile with
        | some q => some q
        | none => pc.default_profile) →
      (bc.vcpkg.getD {}).enabled.getD ((pcfg.vcpkg.getD {}).enabled.getD false) = true →
      strTruthy (bc.vcpkg.getD {}).host_root = none ∨
        strTruthy (bc.vcpkg.getD {}).host_binary_cache = none →
      ∀ eff, resolve_effective_config pc bc root p ≠ .ok eff) ∧
    (∀ (pc : ProjectCfg) (bc : BuildCfg) (root p : PPath) (pcfg : ProjectCfg)
        (w1 w2 : List Wrapper),
      pcfg = select_profile pc (match strTruthy bc.profile with
        | some q => some q
        | none => pc.default_profile) →
      (bc.vcpkg.getD {}).enabled.getD ((pcfg.vcpkg.getD {}).enabled.getD false) = true →
      strTruthy (bc.vcpkg.getD {}).host_root = none ∨
        strTruthy (bc.vcpkg.getD {}).host_binary_cache = none →
      validate_project_config pcfg = .ok () →
      normalize_winexe_wrappers (pcfg.winexe_wrappers.map .jarr) "project config" = .ok w1 →
      normalize_winexe_wrappers (bc.winexe_wrappers.map .jarr) "build config" = .ok w2 →
      resolve_effective_config pc bc root p =
        .error (.died "vcpkg enabled but host_root or host_binary_cache is missing in build config")) ∧
    (∀ (pc : ProjectCfg) (bc : BuildCfg) (root p : PPath) (v : VcpkgOut) (hr hc : String),
      (resolve_effective_config pc bc root p).map (fun e => e.vcpkg) = .ok v →
      strTruthy (bc.vcpkg.getD {}).host_root = some hr →
      strTruthy (bc.vcpkg.getD {}).host_binary_cache = some hc →
      v.enabled = true →
      v.host_root = some hr ∧ v.host_binary_cache = some hc ∧
      (∃ croot, to_container_path (parsePath hr) root DEFAULT_CONTAINER_ROOT = .ok croot ∧
        v.container_root = some croot) ∧
      (∃ ccache, to_container_path (parsePath hc) root DEFAULT_CONTAINER_ROOT = .ok ccache ∧
        v.container_binary_cache = some ccache)) := by
  refine ⟨resolve_vcpkg_missing, ?_, ?_, ?_⟩
  · intro pc bc root p pcfg hpc hen hmiss eff h
    obtain ⟨out, ox, hvcok, _⟩ := resolve_effective_vcpkg pc bc root p eff h
    rw [← hpc] at hvcok
    rw [resolve_vcpkg_missing (pcfg.vcpkg.getD {}) (bc.vcpkg.getD {}) root hen hmiss] at hvcok
    exact Except.noConfusion hvcok
  · intro pc bc root p pcfg w1 w2 hpc hen hmiss hval hw1 hw2
    rw [resolve_effective_config]
    simp only [bind, Except.bind, pure, Except.pure]
    rw [← hpc]
    simp only [hval, hw1, hw2,
      resolve_vcpkg_missing (pcfg.vcpkg.getD {}) (bc.vcpkg.getD {}) root hen hmiss]
  · intro pc bc root p v hr hc hmap h1 h2 hen
    cases hres : resolve_effective_config pc bc root p with
    | error e =>
        rw [hres] at hmap
        exact Except.noConfusion hmap
    | ok eff =>
        rw [hres] at hmap
        simp only [Except.map] at hmap
        injection hmap with hmap
        obtain ⟨out, ox, hvcok, hveq⟩ := resolve_effective_vcpkg pc bc root p eff hres
        rw [hveq] at hmap
        have henout : out.enabled = true := by
          rw [← hmap] at hen
          exact hen
        obtain ⟨ha, hb, ⟨croot, hcr, hvr⟩, ⟨ccache, hcc, hvc2⟩⟩ :=
          resolve_vcpkg_ok_spec _ (bc.vcpkg.getD {}) root out hr hc h1 h2 hvcok henout
        rw [← hmap]
        exact ⟨ha, hb, ⟨croot, hcr, hvr⟩, ⟨ccache, hcc, hvc2⟩⟩

/-- Concrete instantiation of the C7 theorem: with vcpkg enabled and no
host paths the block itself and the end-to-end resolution die with the
missing-host-paths message; with both host paths under the root
`/proj`, the effective configuration maps them to their container-side
images under `/work/project`. -/
theorem c7_witness :
    resolve_vcpkg {} { enabled := some true } (parsePath "/proj") =
      .error (.died "vcpkg enabled but host_root or host_binary_cache is missing in build config") ∧
    resolve_effective_config {} { vcpkg := some { enabled := some true } }
        (parsePath "/proj") (parsePath "/proj/wincross.toml") =
      .error (.died "vcpkg enabled but host_root or host_binary_cache is missing in build config") ∧
    (∃ croot, to_container_path (parsePath "/proj/vcpkg") (parsePath "/proj")
        DEFAULT_CONTAINER_ROOT = .ok croot ∧
      (({ enabled := true
          triplet := "x64-windows"
          packages := []
          overlay_triplets := []
          fixup_z3_dll := false
          host_root := some "/proj/vcpkg"
          host_binary_cache := some "/proj/cache"
          container_root := some "/work/project/vcpkg"
          container_binary_cache := some "/work/project/cache" } : VcpkgOut)).container_root
        = some croot) ∧
    (∃ ccache, to_container_path (parsePath "/proj/cache") (parsePath "/proj")
        DEFAULT_CONTAINER_ROOT = .ok ccache ∧
      (({ enabled := true
          triplet := "x64-windows"
          packages := []
          overlay_triplets := []
          fixup_z3_dll := false
          host_root := some "/proj/vcpkg"
          host_binary_cache := some "/proj/cache"
          container_root := some "/work/project/vcpkg"
          container_binary_cache := some "/work/project/cache" } : VcpkgOut)).container_binary_cache
        = some ccache) :=
  ⟨c7_theorem.1 {} { enabled := some true } (parsePath "/proj") (by decide) (Or.inl (by decide)),
   c7_theorem.2.2.1 {} { vcpkg := some { enabled := some true } }
     (parsePath "/proj") (parsePath "/proj/wincross.toml") (select_profile {} none) [] []
     (by decide) (by decide) (Or.inl (by decide)) (by decide) (by decide) (by decide),
   (c7_theorem.2.2.2 {}
     { vcpkg := some { enabled := some true
                       host_root := some "/proj/vcpkg"
                       host_binary_cache := some "/proj/cache" } }
     (parsePath "/proj") (parsePath "/proj/wincross.toml")
     { enabled := true
       triplet := "x64-windows"
       packages := []
       overlay_triplets := []
       fixup_z3_dll := false
       host_root := some "/proj/vcpkg"
       host_binary_cache := some "/proj/cache"
       container_root := some "/work/project/vcpkg"
       container_binary_cache := some "/work/project/cache" }
     "/proj/vcpkg" "/proj/cache" (by decide) (by decide) (by decide) (by decide)).2.2⟩
end Wincross
